import Mathlib

/-!
vim-clone: a shallow embedding of `main.go`.

The editor state (`Editor`) and the three mode handlers of `main.go` are
translated to pure functions.  A Go `string` is a sequence of bytes, so
`len`, indexing and slicing of lines count bytes; `[]rune(s)` and
`string(runes)` are the UTF-8 decoder and encoder of the Go runtime.
A handler returns `none` where the Go code stops with a run-time failure
(index or slice bounds out of range).

Go `int` values are modelled by `Int`: every increment in the handlers is
bounded by the length of an in-memory slice or by the number of key events,
so the 64-bit wrap-around is never reached.
The goroutine that the first `d` of the `dd` gesture starts is a transition of
its own (`timerFire`); `Session`, `Event` and `runEvents` interleave it with
the key events, each handler and each wake-up being one atomic step.
-/

namespace VimClone

/-! ## Go strings, runes and UTF-8 -/

/-- One byte of a Go string. -/
abbrev Byte := Fin 256

/-- Go `string`: an immutable sequence of bytes (not necessarily valid UTF-8). -/
abbrev GoString := List Byte

/-! A Go `rune` (an `int32` code point) is an `Int` below. -/

/-- Go conversion `byte(n)`: the low eight bits. -/
def toByte (n : Nat) : Byte := ⟨n % 256, Nat.mod_lt n (by decide)⟩

/-- An ASCII string literal of the source as a Go string. -/
def ascii (s : String) : GoString := s.toList.map (fun c => toByte c.toNat)

/-- The constant `utf8.RuneError` (U+FFFD). -/
def RuneError : Int := 0xFFFD

/-- Go `len(s)` as an `int`. -/
def len {α : Type} (s : List α) : Int := (s.length : Int)

/-- Go `s[:hi]`; `none` is the run-time failure "slice bounds out of range".
For the slice `e.buffer` Go allows `hi` up to the capacity; in `main.go` every
such expression is followed, in the same statement, by `e.buffer[hi:]` or
`e.buffer[hi+1:]`, which fails whenever `hi` exceeds the length, so the
handlers fail in exactly the same states. -/
def sliceTo {α : Type} (s : List α) (hi : Int) : Option (List α) :=
  if 0 ≤ hi ∧ hi ≤ len s then some (s.take hi.toNat) else none

/-- Go `s[lo:]`; `none` is the run-time failure "slice bounds out of range". -/
def sliceFrom {α : Type} (s : List α) (lo : Int) : Option (List α) :=
  if 0 ≤ lo ∧ lo ≤ len s then some (s.drop lo.toNat) else none

/-- Go `s[i]`; `none` is the run-time failure "index out of range". -/
def indexAt {α : Type} (s : List α) (i : Int) : Option α :=
  if 0 ≤ i ∧ i < len s then s.get? i.toNat else none

/-- Go `s[i] = v`; `none` is the run-time failure "index out of range". -/
def setAt {α : Type} (s : List α) (i : Int) (v : α) : Option (List α) :=
  if 0 ≤ i ∧ i < len s then some (s.set i.toNat v) else none

/-- Go `utf8.EncodeRune` / the conversion `string(r)`: negative values,
surrogates and values above U+10FFFF are written as U+FFFD.  The bit
operations of the Go code are written arithmetically:
`r>>6` is `r / 64`, `x & 0x3F` is `x % 64`, and `t | x` is `t + x` because the
bits of `x` lie below those of the tag `t`. -/
def encodeRune (r : Int) : GoString :=
  if r < 0 then [0xEF, 0xBF, 0xBD]
  else
    let i := r.toNat
    if i ≤ 0x7F then [toByte i]
    else if i ≤ 0x7FF then [toByte (0xC0 + i / 64), toByte (0x80 + i % 64)]
    else if 0x10FFFF < i ∨ (0xD800 ≤ i ∧ i ≤ 0xDFFF) then [0xEF, 0xBF, 0xBD]
    else if i ≤ 0xFFFF then
      [toByte (0xE0 + i / 4096), toByte (0x80 + i / 64 % 64), toByte (0x80 + i % 64)]
    else
      [toByte (0xF0 + i / 262144), toByte (0x80 + i / 4096 % 64),
       toByte (0x80 + i / 64 % 64), toByte (0x80 + i % 64)]

/-- Length in bytes that the table `utf8.first` assigns to a leading byte
(0 for a byte that cannot start a multi-byte sequence). -/
def seqSize (s0 : Nat) : Nat :=
  if 0xC2 ≤ s0 ∧ s0 ≤ 0xDF then 2
  else if 0xE0 ≤ s0 ∧ s0 ≤ 0xEF then 3
  else if 0xF0 ≤ s0 ∧ s0 ≤ 0xF4 then 4
  else 0

/-- Lower bound of the accepted range of the second byte (`utf8.acceptRanges`). -/
def acceptLo (s0 : Nat) : Nat :=
  if s0 = 0xE0 then 0xA0 else if s0 = 0xF0 then 0x90 else 0x80

/-- Upper bound of the accepted range of the second byte (`utf8.acceptRanges`). -/
def acceptHi (s0 : Nat) : Nat :=
  if s0 = 0xED then 0x9F else if s0 = 0xF4 then 0x8F else 0xBF

/-- Go `utf8.DecodeRuneInString`: the first rune of `s` and its width in
bytes; an invalid or truncated sequence gives `(RuneError, 1)`, the empty
string `(RuneError, 0)`.  Masks and shifts are written arithmetically. -/
def decodeRune (s : GoString) : Int × Nat :=
  match s with
  | [] => (RuneError, 0)
  | s0 :: t =>
    if s0.val < 0x80 then ((s0.val : Int), 1)
    else if seqSize s0.val = 0 then (RuneError, 1)
    else if t.length + 1 < seqSize s0.val then (RuneError, 1)
    else
      match t with
      | [] => (RuneError, 1)
      | s1 :: t1 =>
        if s1.val < acceptLo s0.val ∨ acceptHi s0.val < s1.val then (RuneError, 1)
        else if seqSize s0.val ≤ 2 then
          (((s0.val % 32 * 64 + s1.val % 64 : Nat) : Int), 2)
        else
          match t1 with
          | [] => (RuneError, 1)
          | s2 :: t2 =>
            if s2.val < 0x80 ∨ 0xBF < s2.val then (RuneError, 1)
            else if seqSize s0.val ≤ 3 then
              (((s0.val % 16 * 4096 + s1.val % 64 * 64 + s2.val % 64 : Nat) : Int), 3)
            else
              match t2 with
              | [] => (RuneError, 1)
              | s3 :: _ =>
                if s3.val < 0x80 ∨ 0xBF < s3.val then (RuneError, 1)
                else
                  (((s0.val % 8 * 262144 + s1.val % 64 * 4096 + s2.val % 64 * 64
                      + s3.val % 64 : Nat) : Int), 4)

/-- The decoding loop of `[]rune(s)`; `fuel` bounds the number of runes and
`s.length` always suffices, since every step consumes at least one byte. -/
def runesFuel : Nat → GoString → List Int
  | 0, _ => []
  | _ + 1, [] => []
  | fuel + 1, b :: t =>
    (decodeRune (b :: t)).1 :: runesFuel fuel ((b :: t).drop (decodeRune (b :: t)).2)

/-- Go conversion `[]rune(s)`. -/
def stringToRunes (s : GoString) : List Int := runesFuel s.length s

/-- Go conversion `string(runes)`. -/
def runesToString : List Int → GoString
  | [] => []
  | r :: rs => encodeRune r ++ runesToString rs

/-- Go `unicode.IsSpace`. -/
def isSpace (r : Int) : Bool :=
  decide (r = 0x09 ∨ r = 0x0A ∨ r = 0x0B ∨ r = 0x0C ∨ r = 0x0D ∨ r = 0x20 ∨ r = 0x85
    ∨ r = 0xA0 ∨ r = 0x1680 ∨ (0x2000 ≤ r ∧ r ≤ 0x200A) ∨ r = 0x2028 ∨ r = 0x2029
    ∨ r = 0x202F ∨ r = 0x205F ∨ r = 0x3000)

/-- Go `strings.TrimLeftFunc(s, unicode.IsSpace)`: drops leading white-space
runes; `fuel` bounds the number of runes dropped. -/
def trimLeftFuel : Nat → GoString → GoString
  | 0, s => s
  | _ + 1, [] => []
  | fuel + 1, b :: t =>
    if isSpace (decodeRune (b :: t)).1 then
      trimLeftFuel fuel ((b :: t).drop (decodeRune (b :: t)).2)
    else b :: t

/-- Go `utf8.RuneStart`: the byte is not a continuation byte. -/
def runeStart (b : Byte) : Bool := decide (¬ (0x80 ≤ b.val ∧ b.val ≤ 0xBF))

/-- The backward scan of `utf8.DecodeLastRuneInString`: starting at index
`start` and going down to `lim`, the first index holding a rune start, or
`lim - 1` when there is none. -/
def scanBack (s : GoString) (lim : Int) : Nat → Int → Int
  | 0, start => start
  | fuel + 1, start =>
    if start < lim then start
    else
      match indexAt s start with
      | some b => if runeStart b then start else scanBack s lim fuel (start - 1)
      | none => start

/-- Go `utf8.DecodeLastRuneInString`: the last rune of `s` and its width. -/
def decodeLastRune (s : GoString) : Int × Nat :=
  match s.getLast? with
  | none => (RuneError, 0)
  | some b =>
    if b.val < 0x80 then ((b.val : Int), 1)
    else
      let fin := len s
      let lim : Int := if fin - 4 < 0 then 0 else fin - 4
      let start0 := scanBack s lim 4 (fin - 2)
      let start : Int := if start0 < 0 then 0 else start0
      let d := decodeRune (s.drop start.toNat)
      if start + (d.2 : Int) ≠ fin then (RuneError, 1) else d

/-- Go `strings.TrimRightFunc(s, unicode.IsSpace)`: drops trailing white-space
runes, found from the end with `utf8.DecodeLastRuneInString`; `fuel` bounds
the number of runes dropped. -/
def trimRightFuel : Nat → GoString → GoString
  | 0, s => s
  | fuel + 1, s =>
    if s = [] then []
    else if isSpace (decodeLastRune s).1 then
      trimRightFuel fuel (s.take (s.length - (decodeLastRune s).2))
    else s

/-- Go `strings.TrimSpace`. -/
def trimSpace (s : GoString) : GoString :=
  trimRightFuel s.length (trimLeftFuel s.length s)

/-- Go `strings.Split(s, "\n")`: always at least one element. -/
def splitLines : GoString → List GoString
  | [] => [[]]
  | b :: t =>
    if b = 0x0A then [] :: splitLines t
    else
      match splitLines t with
      | [] => [[b]]
      | l :: ls => (b :: l) :: ls

/-- Go `strings.Join(lines, "\n")`. -/
def joinLines : List GoString → GoString
  | [] => []
  | [l] => l
  | l :: l2 :: ls => l ++ (0x0A : Byte) :: joinLines (l2 :: ls)

/-! ## The editor state -/

/-- The three mode constants; `Editor.mode` only ever holds one of them. -/
inductive Mode where
  | ModeNormal
  | ModeInsert
  | ModeCommand
  deriving DecidableEq

/-- The key codes of `tcell` that `main.go` distinguishes; `KeyRune` is the
code of an ordinary character and `KeyOther` stands for every other code. -/
inductive Key where
  | KeyRune
  | KeyLeft
  | KeyRight
  | KeyUp
  | KeyDown
  | KeyCtrlC
  | KeyEsc
  | KeyEnter
  | KeyBackspace
  | KeyBackspace2
  | KeyOther
  deriving DecidableEq

/-- A `tcell.EventKey`: what `ev.Key()` and `ev.Int()` return. -/
structure EventKey where
  key : Key
  rune : Int
  deriving DecidableEq

/-- The struct `Editor` without its `screen` handle. -/
structure Editor where
  fileName : GoString
  buffer : List GoString
  cursorX : Int
  cursorY : Int
  offsetY : Int
  mode : Mode
  commandBuffer : GoString
  lastKey : Int
  quit : Bool
  message : GoString
  deriving DecidableEq

/-- The editor that `NewEditor` returns. -/
def NewEditor (fileName : GoString) : Editor :=
  { fileName := fileName, buffer := [], cursorX := 0, cursorY := 0, offsetY := 0,
    mode := Mode.ModeNormal, commandBuffer := [], lastKey := 0, quit := false,
    message := [] }

/-- The method `loadFile` on a successful read of the bytes `data`. -/
def loadFile (data : GoString) (e : Editor) : Editor :=
  { e with buffer := splitLines data }

/-- The bytes that `saveFile` hands to `ioutil.WriteFile`. -/
def saveFile (e : Editor) : GoString := joinLines e.buffer

/-- The method `cursorIndex`. -/
def cursorIndex (e : Editor) : Int := e.cursorY

/-- The method `currentLine`: the line under the cursor, or the empty string
when the row is at or past the end of the buffer; a negative row fails. -/
def currentLine (e : Editor) : Option GoString :=
  if cursorIndex e < len e.buffer then indexAt e.buffer (cursorIndex e) else some []

/-- The method `adjustOffset`; `h` is the height reported by `screen.Size()`. -/
def adjustOffset (h : Int) (e : Editor) : Editor :=
  let hContent := h - 1
  if e.cursorY < e.offsetY then { e with offsetY := e.cursorY }
  else if e.cursorY ≥ e.offsetY + hContent then { e with offsetY := e.cursorY - hContent + 1 }
  else e

/-- The column clamp that follows a vertical motion. -/
def clampColumn (e : Editor) : Option Editor := do
  let line ← currentLine e
  if e.cursorX > len line then
    let line2 ← currentLine e
    pure { e with cursorX := len line2 }
  else pure e

/-- Body of the cases `tcell.KeyLeft` and `'h'`. -/
def moveLeft (e : Editor) : Option Editor :=
  if e.cursorX > 0 then some { e with cursorX := e.cursorX - 1 } else some e

/-- Body of the cases `tcell.KeyRight` and `'l'`. -/
def moveRight (e : Editor) : Option Editor := do
  let line ← currentLine e
  if e.cursorX < len line then pure { e with cursorX := e.cursorX + 1 } else pure e

/-- Body of the cases `tcell.KeyUp` and `'k'`. -/
def moveUp (h : Int) (e : Editor) : Option Editor :=
  if e.cursorY > 0 then clampColumn (adjustOffset h { e with cursorY := e.cursorY - 1 })
  else some e

/-- Body of the cases `tcell.KeyDown` and `'j'`. -/
def moveDown (h : Int) (e : Editor) : Option Editor :=
  if e.cursorY < len e.buffer - 1 then
    clampColumn (adjustOffset h { e with cursorY := e.cursorY + 1 })
  else some e

/-- Body of the case `'x'`. -/
def deleteChar (e : Editor) : Option Editor := do
  let line ← currentLine e
  if e.cursorX < len line ∧ len line > 0 then
    let front ← sliceTo line e.cursorX
    let back ← sliceFrom line (e.cursorX + 1)
    let buf ← setAt e.buffer (cursorIndex e) (front ++ back)
    pure { e with buffer := buf }
  else pure e

/-- Body of the case `'d'`.  The goroutine started by the first `d` is the
separate transition `timerFire`. -/
def deleteLineKey (e : Editor) : Option Editor :=
  if e.lastKey = 100 then do
    let idx := cursorIndex e
    let front ← sliceTo e.buffer idx
    let back ← sliceFrom e.buffer (idx + 1)
    let buf := front ++ back
    let y := if e.cursorY ≥ len buf ∧ e.cursorY > 0 then e.cursorY - 1 else e.cursorY
    pure { e with buffer := buf, cursorY := y, lastKey := 0 }
  else some { e with lastKey := 100 }

/-- The delayed assignment `e.lastKey = 0` of the goroutine that the first
`d` starts (it runs 300 ms later, at any point between two key events). -/
def timerFire (e : Editor) : Editor := { e with lastKey := 0 }

/-- The method `processNormalMode`; `h` is the terminal height. -/
def processNormalMode (h : Int) (ev : EventKey) (e : Editor) : Option Editor :=
  match ev.key with
  | Key.KeyLeft => moveLeft e
  | Key.KeyRight => moveRight e
  | Key.KeyUp => moveUp h e
  | Key.KeyDown => moveDown h e
  | Key.KeyCtrlC => some { e with quit := true }
  | _ =>
    if ev.rune = 104 then moveLeft e
    else if ev.rune = 108 then moveRight e
    else if ev.rune = 107 then moveUp h e
    else if ev.rune = 106 then moveDown h e
    else if ev.rune = 105 then
      some { e with mode := Mode.ModeInsert, message := ascii "insert mode" }
    else if ev.rune = 58 then some { e with mode := Mode.ModeCommand, commandBuffer := [] }
    else if ev.rune = 120 then deleteChar e
    else if ev.rune = 100 then deleteLineKey e
    else some { e with lastKey := 0 }

/-- Body of the case `tcell.KeyEnter` of `processInsertMode`. -/
def insertEnter (h : Int) (e : Editor) : Option Editor := do
  let line ← currentLine e
  let (newLine, buf1) ←
    if e.cursorX < len line then do
      let tail ← sliceFrom line e.cursorX
      let head ← sliceTo line e.cursorX
      let b ← setAt e.buffer (cursorIndex e) head
      pure (tail, b)
    else pure (([] : GoString), e.buffer)
  let idx := cursorIndex e + 1
  let front ← sliceTo buf1 idx
  let back ← sliceFrom buf1 idx
  pure (adjustOffset h
    { e with buffer := front ++ (newLine :: back), cursorY := e.cursorY + 1, cursorX := 0 })

/-- Body of the cases `tcell.KeyBackspace, tcell.KeyBackspace2` of
`processInsertMode`. -/
def insertBackspace (e : Editor) : Option Editor :=
  if e.cursorX > 0 then do
    let line ← currentLine e
    let front ← sliceTo line (e.cursorX - 1)
    let back ← sliceFrom line e.cursorX
    let buf ← setAt e.buffer (cursorIndex e) (front ++ back)
    pure { e with buffer := buf, cursorX := e.cursorX - 1 }
  else some e

/-- Body of the default case of `processInsertMode`. -/
def insertRune (r : Int) (e : Editor) : Option Editor :=
  if r ≠ 0 then do
    let line ← currentLine e
    let runes := stringToRunes line
    let runes2 ←
      if e.cursorX > len runes then pure (runes ++ [r])
      else do
        let front ← sliceTo runes e.cursorX
        let back ← sliceFrom runes e.cursorX
        pure (front ++ (r :: back))
    let buf ← setAt e.buffer (cursorIndex e) (runesToString runes2)
    pure { e with buffer := buf, cursorX := e.cursorX + 1 }
  else some e

/-- The method `processInsertMode`. -/
def processInsertMode (h : Int) (ev : EventKey) (e : Editor) : Option Editor :=
  match ev.key with
  | Key.KeyEsc => some { e with mode := Mode.ModeNormal, message := [] }
  | Key.KeyEnter => insertEnter h e
  | Key.KeyBackspace => insertBackspace e
  | Key.KeyBackspace2 => insertBackspace e
  | _ => insertRune ev.rune e

/-- The method `executeCommand`; `saveErr` is the outcome of `saveFile`
when it is called: `none` for success, `some msg` for an error whose
`Error()` text is `msg`. -/
def executeCommand (saveErr : Option GoString) (e : Editor) : Editor :=
  let cmd := trimSpace e.commandBuffer
  if cmd = ascii "w" then
    match saveErr with
    | some msg => { e with message := ascii "Error saving file: " ++ msg }
    | none => { e with message := ascii "File saved" }
  else if cmd = ascii "q" then { e with quit := true }
  else if cmd = ascii "wq" then
    match saveErr with
    | some msg => { e with message := ascii "Error saving file: " ++ msg }
    | none => { e with quit := true }
  else if cmd = ascii "q!" then { e with quit := true }
  else { e with message := ascii "Unknown command: " ++ cmd }

/-- The method `processCommandMode`. -/
def processCommandMode (saveErr : Option GoString) (ev : EventKey) (e : Editor) :
    Option Editor :=
  match ev.key with
  | Key.KeyEsc => some { e with mode := Mode.ModeNormal, commandBuffer := [], message := [] }
  | Key.KeyEnter =>
    let e1 := { executeCommand saveErr e with commandBuffer := [] }
    if e1.mode = Mode.ModeCommand then some { e1 with mode := Mode.ModeNormal } else some e1
  | Key.KeyBackspace =>
    if len e.commandBuffer > 0 then do
      let rest ← sliceTo e.commandBuffer (len e.commandBuffer - 1)
      pure { e with commandBuffer := rest }
    else some e
  | Key.KeyBackspace2 =>
    if len e.commandBuffer > 0 then do
      let rest ← sliceTo e.commandBuffer (len e.commandBuffer - 1)
      pure { e with commandBuffer := rest }
    else some e
  | _ =>
    if ev.rune ≠ 0 then some { e with commandBuffer := e.commandBuffer ++ encodeRune ev.rune }
    else some e

/-- What the event loop of `main` receives with one key event: the event,
the terminal height at that moment and the outcome a save would have. -/
structure Input where
  ev : EventKey
  height : Int
  saveErr : Option GoString

/-- One `*tcell.EventKey` iteration of the loop in `main`: dispatch on the
mode.  (`draw` changes no field of the editor.) -/
def step (i : Input) (e : Editor) : Option Editor :=
  match e.mode with
  | Mode.ModeNormal => processNormalMode i.height i.ev e
  | Mode.ModeInsert => processInsertMode i.height i.ev e
  | Mode.ModeCommand => processCommandMode i.saveErr i.ev e

/-- A finite sequence of key events, stopping at the first run-time failure. -/
def run : List Input → Editor → Option Editor
  | [], e => some e
  | i :: is, e => (step i e).bind (run is)

/-- An ordinary character key on a terminal of height 24. -/
def keyRune (r : Int) : Input :=
  { ev := { key := Key.KeyRune, rune := r }, height := 24, saveErr := none }

/-- A named key on a terminal of height 24. -/
def keyNamed (k : Key) : Input :=
  { ev := { key := k, rune := 0 }, height := 24, saveErr := none }

/-- The session `main` starts on a file with content `data`. -/
def startSession (fileName data : GoString) : Editor := loadFile data (NewEditor fileName)

/-! ## Predicates used in the statements -/

/-- The line at row `y` of a buffer (the empty string when there is none). -/
def lineAt (buf : List GoString) (y : Int) : GoString := buf.getD y.toNat []

/-- The cursor invariant: `0 ≤ row < lineCount` and
`0 ≤ column ≤ len(line at row)`, with `len` the Go length (bytes). -/
def CursorOk (e : Editor) : Prop :=
  0 ≤ e.cursorY ∧ e.cursorY < len e.buffer ∧ 0 ≤ e.cursorX ∧
    e.cursorX ≤ len (lineAt e.buffer e.cursorY)

instance (e : Editor) : Decidable (CursorOk e) := by unfold CursorOk; infer_instance

/-- A navigation key in Normal mode: an arrow key, or a key event that
reaches the rune switch with `h`, `j`, `k` or `l`. -/
def isNavKey (ev : EventKey) : Bool :=
  decide (ev.key = Key.KeyLeft ∨ ev.key = Key.KeyRight ∨ ev.key = Key.KeyUp
    ∨ ev.key = Key.KeyDown
    ∨ (ev.key ≠ Key.KeyCtrlC ∧ (ev.rune = 104 ∨ ev.rune = 106 ∨ ev.rune = 107 ∨ ev.rune = 108)))

/-- The key event of the character `d`. -/
def keyD : EventKey := { key := Key.KeyRune, rune := 100 }

/-- A session on the two-line file `"ab\ncd"` used to instantiate statements. -/
def sampleTwoLines : Editor := startSession (ascii "f") (ascii "ab\ncd")

/-- The two-line sample session in Insert mode with the cursor at `(0, 1)`. -/
def sampleInsert : Editor := { sampleTwoLines with mode := Mode.ModeInsert, cursorX := 1 }

/-- The two-line sample session in Normal mode with the cursor at `(1, 1)`. -/
def sampleNormal : Editor := { sampleTwoLines with cursorX := 1, cursorY := 1 }

/-- The key event of the character `x`. -/
def keyX : EventKey := { key := Key.KeyRune, rune := 120 }

/-- The session on the three-line file `"ab\ncd\nef"` of the end-to-end scenario. -/
def sampleThreeLines : Editor := startSession (ascii "f") (ascii "ab\ncd\nef")

/-- A Unicode scalar value: a code point `0 ..= 0x10FFFF` that is not a
surrogate (exactly the runes that `string(r)` does not replace by U+FFFD). -/
def ValidRune (r : Int) : Prop := 0 ≤ r ∧ r ≤ 0x10FFFF ∧ ¬ (0xD800 ≤ r ∧ r ≤ 0xDFFF)

instance (r : Int) : Decidable (ValidRune r) := by unfold ValidRune; infer_instance

/-- Insert mode on the one-line document `"éé"` (bytes `C3 A9 C3 A9`) with
the cursor at column 1. -/
def sampleAccented : Editor :=
  { startSession (ascii "f") [0xC3, 0xA9, 0xC3, 0xA9] with mode := Mode.ModeInsert, cursorX := 1 }

/-- The three-line sample session in Command mode with `commandBuffer` set to `cmd`. -/
def sampleCommand (cmd : GoString) : Editor :=
  { sampleThreeLines with mode := Mode.ModeCommand, commandBuffer := cmd }

/-- Enter on a terminal of height 24 when a save would fail with the text `msg`. -/
def enterFailingSave (msg : GoString) : Input :=
  { ev := { key := Key.KeyEnter, rune := 13 }, height := 24, saveErr := some msg }

/-- The fields a navigation key may not touch: everything except the cursor
and the viewport offset. -/
def SameExceptView (e e' : Editor) : Prop :=
  e'.fileName = e.fileName ∧ e'.buffer = e.buffer ∧ e'.mode = e.mode ∧
    e'.commandBuffer = e.commandBuffer ∧ e'.lastKey = e.lastKey ∧ e'.quit = e.quit ∧
    e'.message = e.message

/-- A key event for the character `c` as the Normal-mode handler sees it:
`ev.Rune()` is `c` and `ev.Key()` is none of the named keys tested before the
rune switch (for the events `tcell` produces, `ev.Key()` is then `KeyRune`). -/
def carriesChar (ev : EventKey) (c : Int) : Bool :=
  decide (ev.rune = c ∧ ev.key ≠ Key.KeyLeft ∧ ev.key ≠ Key.KeyRight ∧ ev.key ≠ Key.KeyUp
    ∧ ev.key ≠ Key.KeyDown ∧ ev.key ≠ Key.KeyCtrlC)

/-- The transition table of the specification (section 4.1): Normal goes to
Insert on `i` and to Command on `:`, Insert goes to Normal on Escape, Command
goes to Normal on Escape or Enter, and no other pair changes the mode. -/
def specNextMode (m : Mode) (ev : EventKey) : Mode :=
  match m with
  | Mode.ModeNormal =>
    if carriesChar ev 105 then Mode.ModeInsert
    else if carriesChar ev 58 then Mode.ModeCommand
    else Mode.ModeNormal
  | Mode.ModeInsert => if ev.key = Key.KeyEsc then Mode.ModeNormal else Mode.ModeInsert
  | Mode.ModeCommand =>
    if ev.key = Key.KeyEsc ∨ ev.key = Key.KeyEnter then Mode.ModeNormal else Mode.ModeCommand

/-- The viewport invariant for a terminal of height `h` (visible content
height `h - 1`): `0 ≤ offset ≤ row` and `row < offset + visible_height`. -/
def ViewportOk (h : Int) (e : Editor) : Prop :=
  0 ≤ e.offsetY ∧ e.offsetY ≤ e.cursorY ∧ e.cursorY < e.offsetY + (h - 1)

instance (h : Int) (e : Editor) : Decidable (ViewportOk h e) := by
  unfold ViewportOk; infer_instance

/-- The key moves the cursor up in Normal mode: the Up arrow, or `k` reaching
the rune switch. -/
def isUpKey (ev : EventKey) : Bool :=
  decide (ev.key = Key.KeyUp ∨ (ev.rune = 107 ∧ ev.key ≠ Key.KeyLeft ∧ ev.key ≠ Key.KeyRight
    ∧ ev.key ≠ Key.KeyDown ∧ ev.key ≠ Key.KeyCtrlC))

/-- The key moves the cursor down in Normal mode: the Down arrow, or `j`
reaching the rune switch. -/
def isDownKey (ev : EventKey) : Bool :=
  decide (ev.key = Key.KeyDown ∨ (ev.rune = 106 ∧ ev.key ≠ Key.KeyLeft ∧ ev.key ≠ Key.KeyRight
    ∧ ev.key ≠ Key.KeyUp ∧ ev.key ≠ Key.KeyCtrlC))

/-- The key moves the cursor left in Normal mode: the Left arrow, or `h`
reaching the rune switch. -/
def isLeftKey (ev : EventKey) : Bool :=
  decide (ev.key = Key.KeyLeft ∨ (ev.rune = 104 ∧ ev.key ≠ Key.KeyRight ∧ ev.key ≠ Key.KeyUp
    ∧ ev.key ≠ Key.KeyDown ∧ ev.key ≠ Key.KeyCtrlC))

/-- The key moves the cursor right in Normal mode: the Right arrow, or `l`
reaching the rune switch. -/
def isRightKey (ev : EventKey) : Bool :=
  decide (ev.key = Key.KeyRight ∨ (ev.rune = 108 ∧ ev.key ≠ Key.KeyLeft ∧ ev.key ≠ Key.KeyUp
    ∧ ev.key ≠ Key.KeyDown ∧ ev.key ≠ Key.KeyCtrlC))

/-- An ordinary character key on a terminal of height `h`. -/
def keyRuneOn (h : Int) (r : Int) : Input :=
  { ev := { key := Key.KeyRune, rune := r }, height := h, saveErr := none }

/-! ## Key events and the goroutines of `dd` in time -/

/-- What happens to a session, with its time in milliseconds: the loop in
`main` handles a key event, or one of the goroutines started by a first `d`
wakes up and runs `e.lastKey = 0`. -/
inductive Event where
  | key (t : Nat) (i : Input)
  | wake (t : Nat)

/-- The editor, the time of the last event and the wake-up deadlines
(start + 300 ms) of the goroutines that are still asleep. -/
structure Session where
  ed : Editor
  now : Nat
  sleeping : List Nat

/-- The key event runs the `else` branch of `case 'd'`, which starts a
goroutine. -/
def startsTimer (i : Input) (e : Editor) : Bool :=
  decide (e.mode = Mode.ModeNormal ∧ carriesChar i.ev 100 = true ∧ e.lastKey ≠ 100)

/-- One event.  A key event is handled by `step`; a wake-up is possible only
for a goroutine whose `time.Sleep(300 * time.Millisecond)` has elapsed (the
goroutine may run any time after that).  `none` stands for a run-time failure
of the handler or for an event that cannot happen at that time. -/
def stepEvent : Event → Session → Option Session
  | Event.key t i, s =>
    if s.now ≤ t then
      (step i s.ed).map (fun e' =>
        { ed := e', now := t,
          sleeping := if startsTimer i s.ed then s.sleeping ++ [t + 300] else s.sleeping })
    else none
  | Event.wake t, s =>
    if s.now ≤ t then
      match s.sleeping.find? (fun d => decide (d ≤ t)) with
      | some d => some { ed := timerFire s.ed, now := t, sleeping := s.sleeping.erase d }
      | none => none
    else none

/-- A finite sequence of events. -/
def runEvents : List Event → Session → Option Session
  | [], s => some s
  | ev :: evs, s => (stepEvent ev s).bind (runEvents evs)

/-- The session `main` starts at time 0 on a file with content `data`. -/
def startTimed (data : GoString) : Session :=
  { ed := startSession (ascii "f") data, now := 0, sleeping := [] }

/-! ## Properties of the handlers -/

/-! ### Bounds checks that succeed -/

theorem sliceTo_eq {α : Type} (s : List α) (hi : Int) (h0 : 0 ≤ hi) (h1 : hi ≤ len s) :
    sliceTo s hi = some (s.take hi.toNat) := by
  simp [sliceTo, h0, h1]

theorem sliceFrom_eq {α : Type} (s : List α) (lo : Int) (h0 : 0 ≤ lo) (h1 : lo ≤ len s) :
    sliceFrom s lo = some (s.drop lo.toNat) := by
  simp [sliceFrom, h0, h1]

theorem setAt_eq {α : Type} (s : List α) (i : Int) (v : α) (h0 : 0 ≤ i) (h1 : i < len s) :
    setAt s i v = some (s.set i.toNat v) := by
  simp [setAt, h0, h1]

theorem indexAt_eq_lineAt (buf : List GoString) (y : Int) (h0 : 0 ≤ y) (h1 : y < len buf) :
    indexAt buf y = some (lineAt buf y) := by
  have hlt : y.toNat < buf.length := by unfold len at h1; omega
  simp [indexAt, lineAt, h0, h1, List.getD, List.getElem?_eq_getElem hlt]

theorem currentLine_eq (e : Editor) (h0 : 0 ≤ e.cursorY) (h1 : e.cursorY < len e.buffer) :
    currentLine e = some (lineAt e.buffer e.cursorY) := by
  simp [currentLine, cursorIndex, h1, indexAt_eq_lineAt _ _ h0 h1]

theorem moveLeft_ok (e : Editor) (hc : CursorOk e) :
    ∃ e', moveLeft e = some e' ∧ e'.buffer = e.buffer ∧ e'.mode = e.mode ∧ CursorOk e' := by
  obtain ⟨h0, h1, h2, h3⟩ := hc
  unfold moveLeft
  split
  · exact ⟨_, rfl, rfl, rfl, h0, h1, by simp; omega, by simp; omega⟩
  · exact ⟨_, rfl, rfl, rfl, h0, h1, h2, h3⟩

theorem moveRight_ok (e : Editor) (hc : CursorOk e) :
    ∃ e', moveRight e = some e' ∧ e'.buffer = e.buffer ∧ e'.mode = e.mode ∧ CursorOk e' := by
  obtain ⟨h0, h1, h2, h3⟩ := hc
  unfold moveRight
  rw [currentLine_eq e h0 h1]
  simp only [Option.bind_eq_bind, Option.some_bind, Option.pure_def]
  split
  · exact ⟨_, rfl, rfl, rfl, h0, h1, by simp; omega, by simp; omega⟩
  · exact ⟨_, rfl, rfl, rfl, h0, h1, h2, h3⟩

theorem clampColumn_ok (e : Editor) (h0 : 0 ≤ e.cursorY) (h1 : e.cursorY < len e.buffer)
    (h2 : 0 ≤ e.cursorX) :
    ∃ e', clampColumn e = some e' ∧ e'.buffer = e.buffer ∧ e'.mode = e.mode ∧ CursorOk e' := by
  unfold clampColumn
  rw [currentLine_eq e h0 h1]
  simp only [Option.bind_eq_bind, Option.some_bind, Option.pure_def]
  split
  · refine ⟨_, rfl, rfl, rfl, h0, h1, ?_, ?_⟩
    · simp [len]
    · simp
  · exact ⟨_, rfl, rfl, rfl, h0, h1, h2, by omega⟩

/-! ### Navigation -/

@[simp] theorem adjustOffset_buffer (h : Int) (e : Editor) : (adjustOffset h e).buffer = e.buffer := by
  unfold adjustOffset; simp only []; split_ifs <;> rfl

@[simp] theorem adjustOffset_cursorX (h : Int) (e : Editor) : (adjustOffset h e).cursorX = e.cursorX := by
  unfold adjustOffset; simp only []; split_ifs <;> rfl

@[simp] theorem adjustOffset_cursorY (h : Int) (e : Editor) : (adjustOffset h e).cursorY = e.cursorY := by
  unfold adjustOffset; simp only []; split_ifs <;> rfl

@[simp] theorem adjustOffset_mode (h : Int) (e : Editor) : (adjustOffset h e).mode = e.mode := by
  unfold adjustOffset; simp only []; split_ifs <;> rfl

theorem moveUp_ok (h : Int) (e : Editor) (hc : CursorOk e) :
    ∃ e', moveUp h e = some e' ∧ e'.buffer = e.buffer ∧ e'.mode = e.mode ∧ CursorOk e' := by
  obtain ⟨h0, h1, h2, h3⟩ := hc
  unfold moveUp
  split
  · obtain ⟨e', he, hb, hm, hok⟩ :=
      clampColumn_ok (adjustOffset h { e with cursorY := e.cursorY - 1 })
        (by simp; omega) (by simp; omega) (by simpa using h2)
    exact ⟨e', he, by simpa using hb, by simpa using hm, hok⟩
  · exact ⟨_, rfl, rfl, rfl, h0, h1, h2, h3⟩

theorem moveDown_ok (h : Int) (e : Editor) (hc : CursorOk e) :
    ∃ e', moveDown h e = some e' ∧ e'.buffer = e.buffer ∧ e'.mode = e.mode ∧ CursorOk e' := by
  obtain ⟨h0, h1, h2, h3⟩ := hc
  unfold moveDown
  split
  · obtain ⟨e', he, hb, hm, hok⟩ :=
      clampColumn_ok (adjustOffset h { e with cursorY := e.cursorY + 1 })
        (by simp; omega) (by simp; omega) (by simpa using h2)
    exact ⟨e', he, by simpa using hb, by simpa using hm, hok⟩
  · exact ⟨_, rfl, rfl, rfl, h0, h1, h2, h3⟩

theorem nav_step_ok (i : Input) (e : Editor) (hm : e.mode = Mode.ModeNormal)
    (hc : CursorOk e) (hn : isNavKey i.ev = true) :
    ∃ e', step i e = some e' ∧ e'.buffer = e.buffer ∧ e'.mode = Mode.ModeNormal ∧ CursorOk e' := by
  have hL := moveLeft_ok e hc
  have hR := moveRight_ok e hc
  have hU := moveUp_ok i.height e hc
  have hD := moveDown_ok i.height e hc
  rw [hm] at hL hR hU hD
  unfold step
  rw [hm]
  simp only [isNavKey, decide_eq_true_eq] at hn
  unfold processNormalMode
  cases hk : i.ev.key <;> simp only [hk, false_or, true_or, or_false, or_true, ne_eq, not_true_eq_false,
    not_false_eq_true, true_and, false_and, reduceCtorEq] at hn ⊢ <;> first
    | exact hL | exact hR | exact hU | exact hD
    | (by_cases h1 : i.ev.rune = 104
       · simp only [h1, if_true]; exact hL
       · by_cases h2 : i.ev.rune = 108
         · simp only [h1, h2, if_true, if_false]; exact hR
         · by_cases h3 : i.ev.rune = 107
           · simp only [h1, h2, h3, if_true, if_false]; exact hU
           · by_cases h4 : i.ev.rune = 106
             · simp only [h1, h2, h3, h4, if_true, if_false]; exact hD
             · exfalso; rcases hn with h | h | h | h <;> contradiction)

theorem nav_run_ok (keys : List Input) : ∀ (e : Editor), e.mode = Mode.ModeNormal → CursorOk e →
    (∀ i ∈ keys, isNavKey i.ev = true) →
    ∃ e', run keys e = some e' ∧ e'.buffer = e.buffer ∧ e'.mode = Mode.ModeNormal ∧ CursorOk e' := by
  induction keys with
  | nil => intro e hm hc _; exact ⟨e, rfl, rfl, hm, hc⟩
  | cons i rest ih =>
    intro e hm hc hn
    obtain ⟨e1, hs, hb, hm1, hc1⟩ := nav_step_ok i e hm hc (hn i (List.mem_cons_self _ _))
    obtain ⟨e2, hr, hb2, hm2, hc2⟩ := ih e1 hm1 hc1 (fun j hj => hn j (List.mem_cons_of_mem _ hj))
    exact ⟨e2, by simp [run, hs, hr], by rw [hb2, hb], hm2, hc2⟩

/-- C1: from a Normal-mode state whose document is non-empty and whose cursor
satisfies `0 ≤ row < lineCount` and `0 ≤ column ≤ len(line at row)`, every
finite sequence of navigation keys (arrows, `h`, `j`, `k`, `l`) runs without
failure and after every step (after the first `n` keys, for every `n`) the
cursor satisfies `0 ≤ row ≤ lineCount - 1` and `0 ≤ column ≤ len(line at row)`.
(That the document is non-empty is part of `CursorOk`: `0 ≤ row < lineCount`.) -/
theorem nav_keys_keep_cursor_in_bounds (e : Editor) (keys : List Input)
    (hmode : e.mode = Mode.ModeNormal) (hcur : CursorOk e)
    (hnav : ∀ i ∈ keys, isNavKey i.ev = true) (n : Nat) :
    ∃ e', run (keys.take n) e = some e' ∧
      0 ≤ e'.cursorY ∧ e'.cursorY ≤ len e'.buffer - 1 ∧
      0 ≤ e'.cursorX ∧ e'.cursorX ≤ len (lineAt e'.buffer e'.cursorY) := by
  obtain ⟨e', hr, _, _, h0, h1, h2, h3⟩ :=
    nav_run_ok (keys.take n) e hmode hcur (fun i hi => hnav i (List.mem_of_mem_take hi))
  exact ⟨e', hr, h0, by omega, h2, h3⟩

/-- Instance of C1: `l`, `j`, Right, Down, `k`, `h` on the file `"ab\ncd"`. -/
theorem nav_keys_keep_cursor_in_bounds_witness :
    CursorOk sampleTwoLines ∧
    ∃ e', run ([keyRune 108, keyRune 106, keyNamed Key.KeyRight, keyNamed Key.KeyDown,
        keyRune 107, keyRune 104].take 4) sampleTwoLines = some e' ∧
      0 ≤ e'.cursorY ∧ e'.cursorY ≤ len e'.buffer - 1 ∧
      0 ≤ e'.cursorX ∧ e'.cursorX ≤ len (lineAt e'.buffer e'.cursorY) :=
  ⟨by decide, nav_keys_keep_cursor_in_bounds sampleTwoLines _ (by decide) (by decide)
    (by decide) 4⟩

/-! ### The `dd` gesture -/

theorem deleteLine_second (e : Editor) (hl : e.lastKey = 100) (h0 : 0 ≤ e.cursorY)
    (h1 : e.cursorY < len e.buffer) :
    deleteLineKey e = some { e with
      buffer := e.buffer.eraseIdx e.cursorY.toNat,
      cursorY := if e.cursorY < len e.buffer - 1 then e.cursorY
                 else if e.cursorY > 0 then e.cursorY - 1 else e.cursorY,
      lastKey := 0 } := by
  unfold deleteLineKey
  have hlen : len (List.take e.cursorY.toNat e.buffer ++ List.drop (e.cursorY + 1).toNat e.buffer)
      = len e.buffer - 1 := by
    unfold len at *
    simp only [List.length_append, List.length_take, List.length_drop]
    omega
  have hsucc : (e.cursorY + 1).toNat = e.cursorY.toNat + 1 := by omega
  simp only [hl, if_true, cursorIndex, sliceTo_eq _ _ h0 (le_of_lt h1),
    sliceFrom_eq e.buffer (e.cursorY + 1) (by omega) (by omega), Option.bind_eq_bind,
    Option.some_bind, Option.pure_def, hlen]
  rw [hsucc, ← List.eraseIdx_eq_take_drop_succ]
  congr 2
  split_ifs <;> first | rfl | omega

theorem normal_d (h : Int) (e : Editor) :
    processNormalMode h keyD e = deleteLineKey e := by
  simp [processNormalMode, keyD]

/-- C3: in Normal mode with no pending gesture, a document of `n ≥ 1` lines and
cursor row `r < n`, the key `d` followed by `d` while the first is pending
succeeds and yields the original document with exactly the line at index `r`
removed (so `n - 1` lines, the others unchanged and in order); the cursor row
is `r` if `r < n - 1`, and `r - 1` if `r = n - 1` and `r > 0`.
(`n ≥ 1` follows from `0 ≤ r < n`.) -/
theorem dd_removes_line_under_cursor (e : Editor) (i1 i2 : Input)
    (hmode : e.mode = Mode.ModeNormal) (hpend : e.lastKey ≠ 100)
    (hr0 : 0 ≤ e.cursorY) (hr : e.cursorY < len e.buffer)
    (h1 : i1.ev = keyD) (h2 : i2.ev = keyD) :
    ∃ e', run [i1, i2] e = some e' ∧
      len e'.buffer = len e.buffer - 1 ∧
      e'.buffer = e.buffer.eraseIdx e.cursorY.toNat ∧
      (e.cursorY < len e.buffer - 1 → e'.cursorY = e.cursorY) ∧
      (¬ e.cursorY < len e.buffer - 1 → e.cursorY > 0 → e'.cursorY = e.cursorY - 1) := by
  obtain ⟨fn, buf, cx, cy, oy, m, cb, lk, q, msg⟩ := e
  simp only at hmode hpend hr0 hr ⊢
  subst hmode
  have hfirst : step i1 ⟨fn, buf, cx, cy, oy, Mode.ModeNormal, cb, lk, q, msg⟩
      = some ⟨fn, buf, cx, cy, oy, Mode.ModeNormal, cb, 100, q, msg⟩ := by
    simp [step, h1, normal_d, deleteLineKey, hpend]
  have hsecond : step i2 ⟨fn, buf, cx, cy, oy, Mode.ModeNormal, cb, 100, q, msg⟩
      = some ⟨fn, buf.eraseIdx cy.toNat, cx,
          if cy < len buf - 1 then cy else if cy > 0 then cy - 1 else cy,
          oy, Mode.ModeNormal, cb, 0, q, msg⟩ := by
    simp only [step, h2, normal_d]
    exact deleteLine_second ⟨fn, buf, cx, cy, oy, Mode.ModeNormal, cb, 100, q, msg⟩ rfl hr0 hr
  have hrun := congrArg (fun o => Option.bind o (run [i2])) hfirst
  simp only [Option.some_bind, run, hsecond] at hrun
  refine ⟨_, hrun, ?_, rfl, ?_, ?_⟩
  · have hlt : cy.toNat < buf.length := by unfold len at hr; omega
    simp only [len, List.length_eraseIdx, hlt, if_true]
    omega
  · intro h; simp [h]
  · intro h hp; simp [h, hp]

/-- Instance of C3: `dd` on the first line of the file `"ab\ncd"`. -/
theorem dd_removes_line_under_cursor_witness :
    ∃ e', run [keyRune 100, keyRune 100] sampleTwoLines = some e' ∧
      len e'.buffer = len sampleTwoLines.buffer - 1 ∧
      e'.buffer = sampleTwoLines.buffer.eraseIdx sampleTwoLines.cursorY.toNat ∧
      (sampleTwoLines.cursorY < len sampleTwoLines.buffer - 1 →
        e'.cursorY = sampleTwoLines.cursorY) ∧
      (¬ sampleTwoLines.cursorY < len sampleTwoLines.buffer - 1 →
        sampleTwoLines.cursorY > 0 → e'.cursorY = sampleTwoLines.cursorY - 1) :=
  dd_removes_line_under_cursor sampleTwoLines (keyRune 100) (keyRune 100) (by decide)
    (by decide) (by decide) (by decide) rfl rfl

/-! ### List facts used by the edit operations -/

theorem lineAt_eq_getElem (buf : List GoString) (n : Nat) (h : n < buf.length) :
    lineAt buf (n : Int) = buf[n] := by
  simp [lineAt, List.getD, List.getElem?_eq_getElem h]

theorem take_succ_set {α : Type} (l : List α) (n : Nat) (a : α) (h : n < l.length) :
    (l.set n a).take (n + 1) = l.take n ++ [a] := by
  rw [List.set_eq_take_append_cons_drop, if_pos h]
  have hl : (l.take n).length = n := by simp; omega
  rw [List.take_append_eq_append_take, hl, List.take_of_length_le (by omega)]
  simp

theorem drop_succ_set {α : Type} (l : List α) (n : Nat) (a : α) :
    (l.set n a).drop (n + 1) = l.drop (n + 1) :=
  List.drop_set_of_lt a l (Nat.lt_succ_self n)

theorem take_succ_eq {α : Type} (l : List α) (n : Nat) (h : n < l.length) :
    l.take (n + 1) = l.take n ++ [l[n]] := by
  rw [List.take_succ, List.getElem?_eq_getElem h]; rfl

/-! ### Enter in Insert mode -/

theorem insertEnter_eq (h : Int) (e : Editor) (hc : CursorOk e) :
    insertEnter h e = some (adjustOffset h { e with
      buffer := e.buffer.take e.cursorY.toNat ++
        ((lineAt e.buffer e.cursorY).take e.cursorX.toNat ::
          (lineAt e.buffer e.cursorY).drop e.cursorX.toNat ::
          e.buffer.drop (e.cursorY.toNat + 1)),
      cursorY := e.cursorY + 1, cursorX := 0 }) := by
  obtain ⟨h0, h1, h2, h3⟩ := hc
  have hlt : e.cursorY.toNat < e.buffer.length := by unfold len at h1; omega
  have hsucc : (e.cursorY + 1).toNat = e.cursorY.toNat + 1 := by omega
  have hL : lineAt e.buffer e.cursorY = e.buffer[e.cursorY.toNat] := by
    have := lineAt_eq_getElem e.buffer e.cursorY.toNat hlt
    rwa [Int.toNat_of_nonneg h0] at this
  unfold insertEnter
  rw [currentLine_eq e h0 h1]
  simp only [Option.bind_eq_bind, Option.some_bind, Option.pure_def, cursorIndex]
  by_cases hx : e.cursorX < len (lineAt e.buffer e.cursorY)
  · have hlen : len (e.buffer.set e.cursorY.toNat
        ((lineAt e.buffer e.cursorY).take e.cursorX.toNat)) = len e.buffer := by
      simp [len]
    simp only [hx, if_true, sliceFrom_eq _ _ h2 h3, sliceTo_eq _ _ h2 h3,
      setAt_eq _ _ _ h0 h1, Option.some_bind]
    rw [sliceTo_eq _ _ (by omega) (by rw [hlen]; omega),
      sliceFrom_eq _ _ (by omega) (by rw [hlen]; omega)]
    simp only [Option.some_bind, hsucc, take_succ_set _ _ _ hlt, drop_succ_set,
      List.append_assoc, List.singleton_append]
  · have hxe : e.cursorX = len (lineAt e.buffer e.cursorY) := by omega
    have hd : (lineAt e.buffer e.cursorY).drop e.cursorX.toNat = [] := by
      apply List.drop_of_length_le; unfold len at hxe; omega
    have ht : (lineAt e.buffer e.cursorY).take e.cursorX.toNat = lineAt e.buffer e.cursorY := by
      apply List.take_of_length_le; unfold len at hxe; omega
    simp only [hx, if_false, Option.some_bind]
    rw [sliceTo_eq _ _ (by omega) (by omega), sliceFrom_eq _ _ (by omega) (by omega)]
    simp only [Option.some_bind, hsucc, take_succ_eq _ _ hlt, hd, ht,
      List.append_assoc, List.singleton_append]
    rw [hL]

/-- C8: in Insert mode with a valid cursor `(r, c)` on a line `L` (`c ≤ len L`),
Enter succeeds and replaces `L` by the two adjacent lines `L[0,c)` and
`L[c,n)` at indices `r` and `r+1`, whose concatenation is `L`; the document
grows by exactly one line, the lines before `r` and the lines formerly after
`r` are unchanged and in order, and the cursor moves to `(r+1, 0)`. -/
theorem insert_enter_splits_line (e : Editor) (i : Input)
    (hmode : e.mode = Mode.ModeInsert) (hkey : i.ev.key = Key.KeyEnter) (hcur : CursorOk e) :
    ∃ e', step i e = some e' ∧
      e'.buffer = e.buffer.take e.cursorY.toNat ++
        ((lineAt e.buffer e.cursorY).take e.cursorX.toNat ::
          (lineAt e.buffer e.cursorY).drop e.cursorX.toNat ::
          e.buffer.drop (e.cursorY.toNat + 1)) ∧
      lineAt e'.buffer e.cursorY = (lineAt e.buffer e.cursorY).take e.cursorX.toNat ∧
      lineAt e'.buffer (e.cursorY + 1) = (lineAt e.buffer e.cursorY).drop e.cursorX.toNat ∧
      (lineAt e.buffer e.cursorY).take e.cursorX.toNat ++
        (lineAt e.buffer e.cursorY).drop e.cursorX.toNat = lineAt e.buffer e.cursorY ∧
      len e'.buffer = len e.buffer + 1 ∧
      e'.cursorY = e.cursorY + 1 ∧ e'.cursorX = 0 := by
  have hstep : step i e = insertEnter i.height e := by
    simp [step, hmode, processInsertMode, hkey]
  obtain ⟨h0, h1, h2, h3⟩ := hcur
  have hlt : e.cursorY.toNat < e.buffer.length := by unfold len at h1; omega
  have hsucc : (e.cursorY + 1).toNat = e.cursorY.toNat + 1 := by omega
  have htl : (e.buffer.take e.cursorY.toNat).length = e.cursorY.toNat := by simp; omega
  refine ⟨_, hstep.trans (insertEnter_eq i.height e ⟨h0, h1, h2, h3⟩), ?_, ?_, ?_, ?_, ?_, ?_, ?_⟩
  · simp
  · simp only [adjustOffset_buffer, lineAt, List.getD_eq_getElem?_getD]
    rw [List.getElem?_append_right (by omega), htl]
    simp
  · simp only [adjustOffset_buffer, lineAt, List.getD_eq_getElem?_getD, hsucc]
    rw [List.getElem?_append_right (by omega), htl]
    simp
  · exact List.take_append_drop _ _
  · simp only [adjustOffset_buffer, len, List.length_append, List.length_take,
      List.length_cons, List.length_drop]
    omega
  · simp
  · simp

/-- Instance of C8: Enter at `(0, 1)` of the file `"ab\ncd"`. -/
theorem insert_enter_splits_line_witness :
    CursorOk sampleInsert ∧
    ∃ e', step (keyNamed Key.KeyEnter) sampleInsert = some e' ∧
      e'.buffer = sampleInsert.buffer.take sampleInsert.cursorY.toNat ++
        ((lineAt sampleInsert.buffer sampleInsert.cursorY).take sampleInsert.cursorX.toNat ::
          (lineAt sampleInsert.buffer sampleInsert.cursorY).drop sampleInsert.cursorX.toNat ::
          sampleInsert.buffer.drop (sampleInsert.cursorY.toNat + 1)) ∧
      lineAt e'.buffer sampleInsert.cursorY
        = (lineAt sampleInsert.buffer sampleInsert.cursorY).take sampleInsert.cursorX.toNat ∧
      lineAt e'.buffer (sampleInsert.cursorY + 1)
        = (lineAt sampleInsert.buffer sampleInsert.cursorY).drop sampleInsert.cursorX.toNat ∧
      (lineAt sampleInsert.buffer sampleInsert.cursorY).take sampleInsert.cursorX.toNat ++
        (lineAt sampleInsert.buffer sampleInsert.cursorY).drop sampleInsert.cursorX.toNat
        = lineAt sampleInsert.buffer sampleInsert.cursorY ∧
      len e'.buffer = len sampleInsert.buffer + 1 ∧
      e'.cursorY = sampleInsert.cursorY + 1 ∧ e'.cursorX = 0 :=
  ⟨by decide, insert_enter_splits_line sampleInsert (keyNamed Key.KeyEnter) rfl rfl (by decide)⟩

/-! ### `x` in Normal mode -/

theorem normal_x (h : Int) (e : Editor) :
    processNormalMode h keyX e = deleteChar e := by
  simp [processNormalMode, keyX]

theorem deleteChar_eq (e : Editor) (hc : CursorOk e) :
    deleteChar e = some (if e.cursorX < len (lineAt e.buffer e.cursorY) then
      { e with buffer := (e.buffer.set e.cursorY.toNat
          ((lineAt e.buffer e.cursorY).take e.cursorX.toNat ++
            (lineAt e.buffer e.cursorY).drop (e.cursorX.toNat + 1))) }
      else e) := by
  obtain ⟨h0, h1, h2, h3⟩ := hc
  have hsucc : (e.cursorX + 1).toNat = e.cursorX.toNat + 1 := by omega
  unfold deleteChar
  rw [currentLine_eq e h0 h1]
  simp only [Option.bind_eq_bind, Option.some_bind, Option.pure_def, cursorIndex]
  by_cases hx : e.cursorX < len (lineAt e.buffer e.cursorY)
  · have hpos : len (lineAt e.buffer e.cursorY) > 0 := by omega
    simp only [hx, hpos, and_self, if_true, sliceTo_eq _ _ h2 h3,
      sliceFrom_eq (lineAt e.buffer e.cursorY) (e.cursorX + 1) (by omega) (by omega), setAt_eq _ _ _ h0 h1,
      Option.some_bind, hsucc]
  · simp only [hx, false_and, if_false]

/-- The effect of `x` on the bytes of the line: in Normal mode with a valid
cursor `(r, c)` on line `L`, the key `x` succeeds; if `c < len L` it replaces
`L` by `L[0,c)` followed by `L[c+1,n)`, that is, it removes the one byte at
index `c` (the whole character only when that character is a single byte); if
`L` is empty or `c = len L` it changes nothing; in both cases the cursor, every
other line and the mode are unchanged.  On the ASCII document
`["ab","cd","ef"]`, after moving to row 1, column 1, `x` makes row 1 equal to
`"c"`, and then `i`, `Z`, Escape make it `"cZ"`. -/
theorem x_removes_byte_at_cursor (e : Editor) (i : Input)
    (hmode : e.mode = Mode.ModeNormal) (hkey : i.ev = keyX) (hcur : CursorOk e) :
    (∃ e', step i e = some e' ∧
      (e.cursorX < len (lineAt e.buffer e.cursorY) →
        e'.buffer = e.buffer.set e.cursorY.toNat
          ((lineAt e.buffer e.cursorY).take e.cursorX.toNat ++
            (lineAt e.buffer e.cursorY).drop (e.cursorX.toNat + 1)) ∧
        lineAt e'.buffer e.cursorY = (lineAt e.buffer e.cursorY).eraseIdx e.cursorX.toNat) ∧
      (lineAt e.buffer e.cursorY = [] ∨ e.cursorX = len (lineAt e.buffer e.cursorY) → e' = e) ∧
      e'.cursorX = e.cursorX ∧ e'.cursorY = e.cursorY ∧ e'.mode = e.mode ∧
      len e'.buffer = len e.buffer ∧
      (∀ k : Int, 0 ≤ k → k ≠ e.cursorY → lineAt e'.buffer k = lineAt e.buffer k)) ∧
    ((run [keyRune 106, keyRune 108] sampleThreeLines).map
        (fun s => (s.buffer, s.cursorY, s.cursorX, s.mode))
        = some ([ascii "ab", ascii "cd", ascii "ef"], 1, 1, Mode.ModeNormal) ∧
      (run [keyRune 106, keyRune 108, keyRune 120] sampleThreeLines).map
        (fun s => (s.buffer, s.cursorY, s.cursorX, s.mode))
        = some ([ascii "ab", ascii "c", ascii "ef"], 1, 1, Mode.ModeNormal) ∧
      (run [keyRune 106, keyRune 108, keyRune 120, keyRune 105, keyRune 90,
          keyNamed Key.KeyEsc] sampleThreeLines).map
        (fun s => (s.buffer, s.mode))
        = some ([ascii "ab", ascii "cZ", ascii "ef"], Mode.ModeNormal)) := by
  constructor
  · have hstep : step i e = deleteChar e := by simp [step, hmode, hkey, normal_x]
    obtain ⟨h0, h1, h2, h3⟩ := hcur
    have hlt : e.cursorY.toNat < e.buffer.length := by unfold len at h1; omega
    refine ⟨_, hstep.trans (deleteChar_eq e ⟨h0, h1, h2, h3⟩), ?_, ?_, ?_, ?_, ?_, ?_, ?_⟩
    · intro hx
      simp only [hx, if_true, true_and]
      simp only [lineAt, List.getD_eq_getElem?_getD, List.getElem?_set_self hlt,
        Option.getD_some, List.eraseIdx_eq_take_drop_succ]
    · intro hx
      have : ¬ e.cursorX < len (lineAt e.buffer e.cursorY) := by
        rcases hx with hx | hx
        · rw [hx]; simp [len]; omega
        · omega
      simp [this]
    · split_ifs <;> rfl
    · split_ifs <;> rfl
    · split_ifs <;> rfl
    · split_ifs <;> simp [len]
    · intro k hk0 hk
      split_ifs
      · have : e.cursorY.toNat ≠ k.toNat := by omega
        simp only [lineAt, List.getD_eq_getElem?_getD, List.getElem?_set_ne this]
      · rfl
  · exact ⟨by decide, by decide, by decide⟩

/-- Example: `x` at `(1, 1)` of the ASCII file `"ab\ncd"`. -/
theorem x_removes_byte_at_cursor_example :
    CursorOk sampleNormal ∧
    ((∃ e', step (keyRune 120) sampleNormal = some e' ∧
      (sampleNormal.cursorX < len (lineAt sampleNormal.buffer sampleNormal.cursorY) →
        e'.buffer = sampleNormal.buffer.set sampleNormal.cursorY.toNat
          ((lineAt sampleNormal.buffer sampleNormal.cursorY).take sampleNormal.cursorX.toNat ++
            (lineAt sampleNormal.buffer sampleNormal.cursorY).drop
              (sampleNormal.cursorX.toNat + 1)) ∧
        lineAt e'.buffer sampleNormal.cursorY
          = (lineAt sampleNormal.buffer sampleNormal.cursorY).eraseIdx
              sampleNormal.cursorX.toNat) ∧
      (lineAt sampleNormal.buffer sampleNormal.cursorY = [] ∨
        sampleNormal.cursorX = len (lineAt sampleNormal.buffer sampleNormal.cursorY) →
        e' = sampleNormal) ∧
      e'.cursorX = sampleNormal.cursorX ∧ e'.cursorY = sampleNormal.cursorY ∧
      e'.mode = sampleNormal.mode ∧
      len e'.buffer = len sampleNormal.buffer ∧
      (∀ k : Int, 0 ≤ k → k ≠ sampleNormal.cursorY →
        lineAt e'.buffer k = lineAt sampleNormal.buffer k)) ∧
    ((run [keyRune 106, keyRune 108] sampleThreeLines).map
        (fun s => (s.buffer, s.cursorY, s.cursorX, s.mode))
        = some ([ascii "ab", ascii "cd", ascii "ef"], 1, 1, Mode.ModeNormal) ∧
      (run [keyRune 106, keyRune 108, keyRune 120] sampleThreeLines).map
        (fun s => (s.buffer, s.cursorY, s.cursorX, s.mode))
        = some ([ascii "ab", ascii "c", ascii "ef"], 1, 1, Mode.ModeNormal) ∧
      (run [keyRune 106, keyRune 108, keyRune 120, keyRune 105, keyRune 90,
          keyNamed Key.KeyEsc] sampleThreeLines).map
        (fun s => (s.buffer, s.mode))
        = some ([ascii "ab", ascii "cZ", ascii "ef"], Mode.ModeNormal))) :=
  ⟨by decide, x_removes_byte_at_cursor sampleNormal (keyRune 120) rfl rfl (by decide)⟩

/-! ### Backspace in Insert mode -/

theorem insertBackspace_eq (e : Editor) (hc : CursorOk e) :
    insertBackspace e = some (if e.cursorX > 0 then
      { e with
        buffer := (e.buffer.set e.cursorY.toNat
          ((lineAt e.buffer e.cursorY).eraseIdx (e.cursorX - 1).toNat)),
        cursorX := e.cursorX - 1 }
      else e) := by
  obtain ⟨h0, h1, h2, h3⟩ := hc
  have hsucc : e.cursorX.toNat = (e.cursorX - 1).toNat + 1 ∨ ¬ e.cursorX > 0 := by omega
  unfold insertBackspace
  by_cases hx : e.cursorX > 0
  · rcases hsucc with hs | hs
    · simp only [hx, if_true, currentLine_eq e h0 h1, Option.bind_eq_bind, Option.some_bind,
        Option.pure_def, cursorIndex,
        sliceTo_eq (lineAt e.buffer e.cursorY) (e.cursorX - 1) (by omega) (by omega),
        sliceFrom_eq _ _ h2 h3, setAt_eq _ _ _ h0 h1, List.eraseIdx_eq_take_drop_succ]
      rw [← hs]
    · exact absurd hx hs
  · simp only [hx, if_false]

/-- The effect of Backspace on the bytes of the line: in Insert mode with a
valid cursor `(r, c)`, Backspace succeeds; if `c > 0` it removes the one byte
at index `c - 1` from the current line (the whole character before the cursor
only when that character is a single byte), leaves every other byte and every
other line unchanged, and sets the column to `c - 1`; if `c = 0` it changes
neither the document nor the cursor (no join with the previous line). -/
theorem backspace_removes_byte_before_cursor (e : Editor) (i : Input)
    (hmode : e.mode = Mode.ModeInsert)
    (hkey : i.ev.key = Key.KeyBackspace ∨ i.ev.key = Key.KeyBackspace2) (hcur : CursorOk e) :
    ∃ e', step i e = some e' ∧
      (e.cursorX > 0 →
        e'.buffer = e.buffer.set e.cursorY.toNat
          ((lineAt e.buffer e.cursorY).eraseIdx (e.cursorX - 1).toNat) ∧
        lineAt e'.buffer e.cursorY
          = (lineAt e.buffer e.cursorY).take (e.cursorX - 1).toNat ++
              (lineAt e.buffer e.cursorY).drop e.cursorX.toNat ∧
        e'.cursorX = e.cursorX - 1) ∧
      (e.cursorX = 0 → e' = e) ∧
      e'.cursorY = e.cursorY ∧ e'.mode = e.mode ∧ len e'.buffer = len e.buffer ∧
      (∀ k : Int, 0 ≤ k → k ≠ e.cursorY → lineAt e'.buffer k = lineAt e.buffer k) := by
  have hstep : step i e = insertBackspace e := by
    rcases hkey with hk | hk <;> simp [step, hmode, processInsertMode, hk]
  obtain ⟨h0, h1, h2, h3⟩ := hcur
  have hlt : e.cursorY.toNat < e.buffer.length := by unfold len at h1; omega
  refine ⟨_, hstep.trans (insertBackspace_eq e ⟨h0, h1, h2, h3⟩), ?_, ?_, ?_, ?_, ?_, ?_⟩
  · intro hx
    have hs : e.cursorX.toNat = (e.cursorX - 1).toNat + 1 := by omega
    simp only [hx, if_true, true_and, and_true]
    simp only [lineAt, List.getD_eq_getElem?_getD, List.getElem?_set_self hlt,
      Option.getD_some, List.eraseIdx_eq_take_drop_succ, hs]
  · intro hx
    simp [hx]
  · split_ifs <;> rfl
  · split_ifs <;> rfl
  · split_ifs <;> simp [len]
  · intro k hk0 hk
    split_ifs
    · have : e.cursorY.toNat ≠ k.toNat := by omega
      simp only [lineAt, List.getD_eq_getElem?_getD, List.getElem?_set_ne this]
    · rfl

/-- Example: Backspace at `(0, 1)` of the ASCII file `"ab\ncd"`. -/
theorem backspace_removes_byte_before_cursor_example :
    CursorOk sampleInsert ∧
    ∃ e', step (keyNamed Key.KeyBackspace) sampleInsert = some e' ∧
      (sampleInsert.cursorX > 0 →
        e'.buffer = sampleInsert.buffer.set sampleInsert.cursorY.toNat
          ((lineAt sampleInsert.buffer sampleInsert.cursorY).eraseIdx
            (sampleInsert.cursorX - 1).toNat) ∧
        lineAt e'.buffer sampleInsert.cursorY
          = (lineAt sampleInsert.buffer sampleInsert.cursorY).take
                (sampleInsert.cursorX - 1).toNat ++
              (lineAt sampleInsert.buffer sampleInsert.cursorY).drop
                sampleInsert.cursorX.toNat ∧
        e'.cursorX = sampleInsert.cursorX - 1) ∧
      (sampleInsert.cursorX = 0 → e' = sampleInsert) ∧
      e'.cursorY = sampleInsert.cursorY ∧ e'.mode = sampleInsert.mode ∧
      len e'.buffer = len sampleInsert.buffer ∧
      (∀ k : Int, 0 ≤ k → k ≠ sampleInsert.cursorY →
        lineAt e'.buffer k = lineAt sampleInsert.buffer k) :=
  ⟨by decide, backspace_removes_byte_before_cursor sampleInsert (keyNamed Key.KeyBackspace)
    rfl (Or.inl rfl) (by decide)⟩

/-! ### Where `dd` leaves the state -/

/-- C2 (the code at the failing input): on the one-line file `"a"` the two
keys `d`, `d` succeed and leave the document with zero lines. -/
theorem dd_on_single_line_leaves_no_line :
    (run [keyRune 100, keyRune 100] (startSession (ascii "f") (ascii "a"))).map
      (fun s => (s.buffer, s.cursorY, s.cursorX, s.mode))
      = some ([], 0, 0, Mode.ModeNormal) := by
  decide

/-- C4 (the code at the failing input): on the file `"a\nb\nc"` the keys `d`,
`j` leave the three lines in place and the gesture pending, and the following
single `d` removes the line under the cursor. -/
theorem pending_d_survives_j :
    (run [keyRune 100, keyRune 106] (startSession (ascii "f") (ascii "a\nb\nc"))).map
        (fun s => (s.buffer, s.cursorY, s.lastKey))
        = some ([ascii "a", ascii "b", ascii "c"], 1, 100) ∧
    (run [keyRune 100, keyRune 106, keyRune 100]
        (startSession (ascii "f") (ascii "a\nb\nc"))).map
        (fun s => (s.buffer, s.cursorY, s.lastKey))
        = some ([ascii "a", ascii "c"], 1, 0) := by
  decide

/-- C5 (the code at the failing input): on the file `"abc\n"` the keys `l`,
`l`, `l`, `d` reach a state that satisfies the cursor invariant, and the next
`d` leaves a non-empty document with the column past the end of the line. -/
theorem dd_leaves_column_past_line_end :
    (∃ e1, run [keyRune 108, keyRune 108, keyRune 108, keyRune 100]
        (startSession (ascii "f") (ascii "abc\n")) = some e1 ∧ CursorOk e1 ∧
      ∃ e2, step (keyRune 100) e1 = some e2 ∧ e2.buffer = [[]] ∧ e2.cursorY = 0 ∧
        e2.cursorX = 3 ∧ ¬ CursorOk e2) := by
  refine ⟨{ startSession (ascii "f") (ascii "abc\n") with cursorX := 3, lastKey := 100 },
    by decide, by decide,
    { startSession (ascii "f") (ascii "abc\n") with cursorX := 3, buffer := [[]] },
    by decide, by decide, by decide, by decide, by decide⟩

/-- C6 (the code at the failing input): on the file `"ab\n"` the keys `l`, `l`,
`d`, `d`, `i` succeed and the following Backspace stops with a run-time
failure; on the one-line file `"a"` the keys `d`, `d`, `d` succeed and the
fourth `d` stops with a run-time failure. -/
theorem handler_fails_after_dd :
    (run [keyRune 108, keyRune 108, keyRune 100, keyRune 100, keyRune 105]
        (startSession (ascii "f") (ascii "ab\n"))).isSome = true ∧
    run [keyRune 108, keyRune 108, keyRune 100, keyRune 100, keyRune 105,
        keyNamed Key.KeyBackspace] (startSession (ascii "f") (ascii "ab\n")) = none ∧
    (run [keyRune 100, keyRune 100, keyRune 100]
        (startSession (ascii "f") (ascii "a"))).isSome = true ∧
    run [keyRune 100, keyRune 100, keyRune 100, keyRune 100]
        (startSession (ascii "f") (ascii "a")) = none := by
  decide

/-! ### UTF-8: decoding an encoded rune -/

theorem encodeRune_length_pos (r : Int) : 1 ≤ (encodeRune r).length := by
  simp only [encodeRune]
  split_ifs <;> simp

theorem toByte_val (n : Nat) (h : n < 256) : (toByte n).val = n := by
  simp only [toByte]; omega

theorem decodeRune_one (b0 : Byte) (rest : GoString) (h : b0.val < 0x80) :
    decodeRune (b0 :: rest) = ((b0.val : Int), 1) := by
  simp only [decodeRune, h, if_true]

theorem decodeRune_two (b0 b1 : Byte) (rest : GoString)
    (h0 : 0xC2 ≤ b0.val ∧ b0.val ≤ 0xDF) (h1 : 0x80 ≤ b1.val ∧ b1.val ≤ 0xBF) :
    decodeRune (b0 :: b1 :: rest) = (((b0.val % 32 * 64 + b1.val % 64 : Nat) : Int), 2) := by
  have hs : seqSize b0.val = 2 := by simp only [seqSize]; rw [if_pos h0]
  have hlo : acceptLo b0.val = 0x80 := by simp only [acceptLo]; split_ifs <;> omega
  have hhi : acceptHi b0.val = 0xBF := by simp only [acceptHi]; split_ifs <;> omega
  have c0 : ¬ b0.val < 0x80 := by omega
  have c1 : ¬ (rest.length + 1 + 1 < 2) := by omega
  have c2 : ¬ (b1.val < 0x80 ∨ 0xBF < b1.val) := by omega
  simp only [decodeRune, hs, hlo, hhi, c0, c1, c2, if_false, List.length_cons]
  simp

theorem decodeRune_three (b0 b1 b2 : Byte) (rest : GoString)
    (h0 : 0xE0 ≤ b0.val ∧ b0.val ≤ 0xEF)
    (h1 : acceptLo b0.val ≤ b1.val ∧ b1.val ≤ acceptHi b0.val)
    (h2 : 0x80 ≤ b2.val ∧ b2.val ≤ 0xBF) :
    decodeRune (b0 :: b1 :: b2 :: rest)
      = (((b0.val % 16 * 4096 + b1.val % 64 * 64 + b2.val % 64 : Nat) : Int), 3) := by
  have hs : seqSize b0.val = 3 := by simp only [seqSize]; split_ifs <;> omega
  have c0 : ¬ b0.val < 0x80 := by omega
  have c1 : ¬ (rest.length + 1 + 1 + 1 < 3) := by omega
  have c2 : ¬ (b1.val < acceptLo b0.val ∨ acceptHi b0.val < b1.val) := by omega
  have c3 : ¬ (b2.val < 0x80 ∨ 0xBF < b2.val) := by omega
  simp only [decodeRune, hs, c0, c1, c2, c3, if_false, List.length_cons]
  simp

theorem decodeRune_four (b0 b1 b2 b3 : Byte) (rest : GoString)
    (h0 : 0xF0 ≤ b0.val ∧ b0.val ≤ 0xF4)
    (h1 : acceptLo b0.val ≤ b1.val ∧ b1.val ≤ acceptHi b0.val)
    (h2 : 0x80 ≤ b2.val ∧ b2.val ≤ 0xBF) (h3 : 0x80 ≤ b3.val ∧ b3.val ≤ 0xBF) :
    decodeRune (b0 :: b1 :: b2 :: b3 :: rest)
      = (((b0.val % 8 * 262144 + b1.val % 64 * 4096 + b2.val % 64 * 64 + b3.val % 64 : Nat)
          : Int), 4) := by
  have hs : seqSize b0.val = 4 := by simp only [seqSize]; split_ifs <;> omega
  have c0 : ¬ b0.val < 0x80 := by omega
  have c1 : ¬ (rest.length + 1 + 1 + 1 + 1 < 4) := by omega
  have c2 : ¬ (b1.val < acceptLo b0.val ∨ acceptHi b0.val < b1.val) := by omega
  have c3 : ¬ (b2.val < 0x80 ∨ 0xBF < b2.val) := by omega
  have c4 : ¬ (b3.val < 0x80 ∨ 0xBF < b3.val) := by omega
  simp only [decodeRune, hs, c0, c1, c2, c3, c4, if_false, List.length_cons]
  simp

theorem decodeRune_encodeRune (r : Int) (hv : ValidRune r) (rest : GoString) :
    decodeRune (encodeRune r ++ rest) = (r, (encodeRune r).length) := by
  obtain ⟨h0, h1, h2⟩ := hv
  obtain ⟨i, rfl⟩ := Int.eq_ofNat_of_zero_le h0
  have hneg : ¬ ((i : Int) < 0) := by omega
  simp only [encodeRune, hneg, if_false, Int.toNat_ofNat]
  by_cases c1 : i ≤ 0x7F
  · simp only [c1, if_true, List.cons_append, List.nil_append, List.length_singleton]
    rw [decodeRune_one _ _ (by rw [toByte_val _ (by omega)]; omega), toByte_val _ (by omega)]
  · by_cases c2 : i ≤ 0x7FF
    · simp only [c1, c2, if_true, if_false, List.cons_append, List.nil_append,
        List.length_cons, List.length_nil]
      have e0 := toByte_val (0xC0 + i / 64) (by omega)
      have e1 := toByte_val (0x80 + i % 64) (by omega)
      rw [decodeRune_two _ _ _ (by rw [e0]; omega) (by rw [e1]; omega), e0, e1]
      simp only [Prod.mk.injEq, Nat.cast_inj, and_true]
      omega
    · have c3 : ¬ (0x10FFFF < i ∨ (0xD800 ≤ i ∧ i ≤ 0xDFFF)) := by omega
      by_cases c4 : i ≤ 0xFFFF
      · simp only [c1, c2, c3, c4, if_true, if_false, List.cons_append, List.nil_append,
          List.length_cons, List.length_nil]
        have e0 := toByte_val (0xE0 + i / 4096) (by omega)
        have e1 := toByte_val (0x80 + i / 64 % 64) (by omega)
        have e2 := toByte_val (0x80 + i % 64) (by omega)
        rw [decodeRune_three _ _ _ _ (by rw [e0]; omega)
          (by rw [e0, e1]; simp only [acceptLo, acceptHi]; split_ifs <;> omega)
          (by rw [e2]; omega), e0, e1, e2]
        simp only [Prod.mk.injEq, Nat.cast_inj, and_true]
        omega
      · simp only [c1, c2, c3, c4, if_true, if_false, List.cons_append, List.nil_append,
          List.length_cons, List.length_nil]
        have e0 := toByte_val (0xF0 + i / 262144) (by omega)
        have e1 := toByte_val (0x80 + i / 4096 % 64) (by omega)
        have e2 := toByte_val (0x80 + i / 64 % 64) (by omega)
        have e3 := toByte_val (0x80 + i % 64) (by omega)
        rw [decodeRune_four _ _ _ _ _ (by rw [e0]; omega)
          (by rw [e0, e1]; simp only [acceptLo, acceptHi]; split_ifs <;> omega)
          (by rw [e2]; omega) (by rw [e3]; omega), e0, e1, e2, e3]
        simp only [Prod.mk.injEq, Nat.cast_inj, and_true]
        omega

theorem runesFuel_runesToString (R : List Int) (hR : ∀ r ∈ R, ValidRune r) :
    ∀ fuel, (runesToString R).length ≤ fuel → runesFuel fuel (runesToString R) = R := by
  induction R with
  | nil =>
    intro fuel _
    cases fuel <;> rfl
  | cons r rs ih =>
    intro fuel hf
    have hpos := encodeRune_length_pos r
    have hv := hR r (List.mem_cons_self _ _)
    simp only [runesToString, List.length_append] at hf ⊢
    obtain ⟨f, rfl⟩ : ∃ f, fuel = f + 1 := ⟨fuel - 1, by omega⟩
    cases hs : encodeRune r ++ runesToString rs with
    | nil =>
      have := congrArg List.length hs
      simp only [List.length_append, List.length_nil] at this
      omega
    | cons b t =>
      simp only [runesFuel]
      rw [← hs, decodeRune_encodeRune r hv, List.drop_left,
        ih (fun x hx => hR x (List.mem_cons_of_mem _ hx)) f (by omega)]

theorem stringToRunes_runesToString (R : List Int) (hR : ∀ r ∈ R, ValidRune r) :
    stringToRunes (runesToString R) = R :=
  runesFuel_runesToString R hR _ (le_refl _)

/-! ### Typing in Insert mode -/

theorem set_getElem_same {α : Type} (l : List α) (n : Nat) (h : n < l.length) :
    l.set n l[n] = l := by
  apply List.ext_getElem?
  intro m
  by_cases hm : n = m
  · subst hm
    rw [List.getElem?_set_self h, List.getElem?_eq_getElem h]
  · rw [List.getElem?_set_ne hm]

theorem set_lineAt_self (buf : List GoString) (y : Int) (h0 : 0 ≤ y) (h1 : y < len buf) :
    buf.set y.toNat (lineAt buf y) = buf := by
  have hlt : y.toNat < buf.length := by unfold len at h1; omega
  have := lineAt_eq_getElem buf y.toNat hlt
  rw [Int.toNat_of_nonneg h0] at this
  rw [this]
  exact set_getElem_same _ _ hlt

theorem lineAt_set_self (buf : List GoString) (y : Int) (v : GoString) (h0 : 0 ≤ y)
    (h1 : y < len buf) : lineAt (buf.set y.toNat v) y = v := by
  have hlt : y.toNat < buf.length := by unfold len at h1; omega
  simp only [lineAt, List.getD_eq_getElem?_getD, List.getElem?_set_self hlt, Option.getD_some]

theorem lineAt_set_ne (buf : List GoString) (y k : Int) (v : GoString) (h0 : 0 ≤ y)
    (hk0 : 0 ≤ k) (hk : k ≠ y) : lineAt (buf.set y.toNat v) k = lineAt buf k := by
  have : y.toNat ≠ k.toNat := by omega
  simp only [lineAt, List.getD_eq_getElem?_getD, List.getElem?_set_ne this]

theorem insertRune_eq (r : Int) (e : Editor) (R : List Int) (hr : r ≠ 0)
    (h0 : 0 ≤ e.cursorY) (h1 : e.cursorY < len e.buffer)
    (hline : lineAt e.buffer e.cursorY = runesToString R) (hR : ∀ x ∈ R, ValidRune x)
    (hc0 : 0 ≤ e.cursorX) (hc : e.cursorX ≤ len R) :
    insertRune r e = some { e with
      buffer := (e.buffer.set e.cursorY.toNat
        (runesToString (R.take e.cursorX.toNat ++ r :: R.drop e.cursorX.toNat))),
      cursorX := e.cursorX + 1 } := by
  have hgt : ¬ e.cursorX > len R := by omega
  simp only [insertRune, hr, ne_eq, not_false_eq_true, if_true, currentLine_eq e h0 h1, hline,
    stringToRunes_runesToString R hR, hgt, if_false, Option.bind_eq_bind, Option.some_bind,
    Option.pure_def, sliceTo_eq _ _ hc0 hc, sliceFrom_eq _ _ hc0 hc, cursorIndex,
    setAt_eq _ _ _ h0 h1]

theorem typing_run (keys : List Input) : ∀ (e : Editor) (R : List Int),
    e.mode = Mode.ModeInsert → 0 ≤ e.cursorY → e.cursorY < len e.buffer →
    lineAt e.buffer e.cursorY = runesToString R → (∀ x ∈ R, ValidRune x) →
    0 ≤ e.cursorX → e.cursorX ≤ len R →
    (∀ i ∈ keys, i.ev.key = Key.KeyRune ∧ i.ev.rune ≠ 0 ∧ ValidRune i.ev.rune) →
    run keys e = some { e with
      buffer := (e.buffer.set e.cursorY.toNat
        (runesToString (R.take e.cursorX.toNat ++ keys.map (fun i => i.ev.rune)
          ++ R.drop e.cursorX.toNat))),
      cursorX := e.cursorX + len keys } := by
  induction keys with
  | nil =>
    intro e R _ h0 h1 hline _ _ _ _
    simp only [run, List.map_nil, List.append_nil, List.take_append_drop, ← hline,
      set_lineAt_self _ _ h0 h1, len, List.length_nil, Nat.cast_zero, add_zero]
  | cons i rest ih =>
    intro e R hm h0 h1 hline hR hc0 hc hk
    obtain ⟨hkey, hne, hval⟩ := hk i (List.mem_cons_self _ _)
    have hcn : e.cursorX.toNat ≤ R.length := by unfold len at hc; omega
    have hstep : step i e = some { e with
        buffer := (e.buffer.set e.cursorY.toNat
          (runesToString (R.take e.cursorX.toNat ++ i.ev.rune :: R.drop e.cursorX.toNat))),
        cursorX := e.cursorX + 1 } := by
      have hd : step i e = insertRune i.ev.rune e := by
        simp only [step, hm, processInsertMode, hkey]
      rw [hd]
      exact insertRune_eq _ e R hne h0 h1 hline hR hc0 hc
    have htl : (R.take e.cursorX.toNat).length = e.cursorX.toNat := by simp; omega
    have hsucc : (e.cursorX + 1).toNat = e.cursorX.toNat + 1 := by omega
    have hlen1 : len (e.buffer.set e.cursorY.toNat
        (runesToString (R.take e.cursorX.toNat ++ i.ev.rune :: R.drop e.cursorX.toNat)))
        = len e.buffer := by simp [len]
    have hnext := ih { e with
        buffer := (e.buffer.set e.cursorY.toNat
          (runesToString (R.take e.cursorX.toNat ++ i.ev.rune :: R.drop e.cursorX.toNat))),
        cursorX := e.cursorX + 1 }
      (R.take e.cursorX.toNat ++ i.ev.rune :: R.drop e.cursorX.toNat) hm h0
      (by rw [hlen1]; exact h1) (lineAt_set_self _ _ _ h0 h1)
      (by
        intro x hx
        rcases List.mem_append.1 hx with hx | hx
        · exact hR x (List.mem_of_mem_take hx)
        · rcases List.mem_cons.1 hx with hx | hx
          · rw [hx]; exact hval
          · exact hR x (List.mem_of_mem_drop hx))
      (by show 0 ≤ e.cursorX + 1; omega)
      (by
        show e.cursorX + 1 ≤ len _
        simp only [len, List.length_append, List.length_cons, List.length_take,
          List.length_drop] at hc ⊢
        omega)
      (fun j hj => hk j (List.mem_cons_of_mem _ hj))
    simp only [run, hstep, Option.some_bind]
    rw [hnext]
    have ht : List.take (e.cursorX.toNat + 1)
        (R.take e.cursorX.toNat ++ i.ev.rune :: R.drop e.cursorX.toNat)
        = R.take e.cursorX.toNat ++ [i.ev.rune] := by
      rw [List.take_append_eq_append_take, htl, List.take_of_length_le (by omega)]
      simp
    have hd : List.drop (e.cursorX.toNat + 1)
        (R.take e.cursorX.toNat ++ i.ev.rune :: R.drop e.cursorX.toNat)
        = R.drop e.cursorX.toNat := by
      rw [List.drop_append_eq_append_drop, htl, List.drop_of_length_le (by omega)]
      simp
    simp only [hsucc, ht, hd, List.set_set, List.map_cons, List.append_assoc,
      List.singleton_append, len, List.length_cons, Nat.cast_add, Nat.cast_one]
    congr 2
    omega

theorem runesToString_ascii (L : GoString) (h : ∀ b ∈ L, b.val < 0x80) :
    runesToString (L.map (fun b => (b.val : Int))) = L := by
  induction L with
  | nil => rfl
  | cons b t ih =>
    have hb : b.val < 0x80 := h b (List.mem_cons_self _ _)
    have hneg : ¬ ((b.val : Int) < 0) := by omega
    have hle : b.val ≤ 0x7F := by omega
    have hbyte : toByte b.val = b := by
      apply Fin.ext
      rw [toByte_val _ (by omega)]
    simp only [List.map_cons, runesToString, encodeRune, hneg, if_false, Int.toNat_ofNat, hle,
      if_true, hbyte, List.singleton_append, ih (fun x hx => h x (List.mem_cons_of_mem _ hx))]

/-- C7 (the code at the failing input): on the file `"éé"` (bytes
`C3 A9 C3 A9`) the keys `l`, `l`, `i` reach Insert mode with a valid cursor at
column `2 ≤ len = 4`, the column at which `x`, Enter, Backspace and the
display address the second `é`; typing `a` gives the line `"ééa"`, not
`original[0,2)` followed by `"a"` followed by `original[2,4)`.  On a file
holding the single byte `FF` the keys `i`, `a` type `a` at column 0 of a line
of length 1 and give the line `61 EF BF BD`, not `"a"` followed by the
original line `FF`. -/
theorem typing_is_not_at_the_byte_column :
    ((run [keyRune 105] (startSession (ascii "f") [0xFF])).map
        (fun s => (s.buffer, s.cursorY, s.cursorX, s.mode, decide (CursorOk s)))
        = some ([[0xFF]], 0, 0, Mode.ModeInsert, true) ∧
      (run [keyRune 105, keyRune 97] (startSession (ascii "f") [0xFF])).map
        (fun s => (s.buffer, s.cursorX))
        = some ([[0x61, 0xEF, 0xBF, 0xBD]], 1) ∧
      ([0x61, 0xEF, 0xBF, 0xBD] : GoString)
        ≠ List.take 0 [0xFF] ++ runesToString [97] ++ List.drop 0 [0xFF]) ∧
    ((run [keyRune 108, keyRune 108, keyRune 105]
        (startSession (ascii "f") [0xC3, 0xA9, 0xC3, 0xA9])).map
        (fun s => (s.buffer, s.cursorY, s.cursorX, s.mode, decide (CursorOk s)))
        = some ([[0xC3, 0xA9, 0xC3, 0xA9]], 0, 2, Mode.ModeInsert, true) ∧
      (run [keyRune 108, keyRune 108, keyRune 105, keyRune 97]
        (startSession (ascii "f") [0xC3, 0xA9, 0xC3, 0xA9])).map
        (fun s => (s.buffer, s.cursorX))
        = some ([[0xC3, 0xA9, 0xC3, 0xA9, 0x61]], 3) ∧
      ([0xC3, 0xA9, 0xC3, 0xA9, 0x61] : GoString)
        ≠ List.take 2 [0xC3, 0xA9, 0xC3, 0xA9] ++ runesToString [97]
            ++ List.drop 2 [0xC3, 0xA9, 0xC3, 0xA9]) :=
  ⟨⟨by decide, by decide, by decide⟩, by decide, by decide, by decide⟩

/-- Typing on a line of valid UTF-8 when the column is a code-point index: in
Insert mode with the cursor on a row of the document whose line is the
encoding of the code points `R`, and with the column `c ≤ |R|` (for an ASCII
line `|R| = len`, see `runesToString_ascii`), typing any finite sequence `s`
of non-zero Unicode scalar values, one per key event, succeeds; afterwards
the line is the encoding of `R[0,c)` followed by `s` followed by `R[c,|R|)`
(and reads back as exactly these code points), the column is `c + |s|`, the
row is unchanged and every other line of the document is unchanged.  On a
line with a multi-byte character the columns `c ≤ len` that the other
handlers produce are byte offsets and need not satisfy `c ≤ |R|`. -/
theorem typing_inserts_code_points (e : Editor) (keys : List Input) (R : List Int)
    (hmode : e.mode = Mode.ModeInsert) (hrow0 : 0 ≤ e.cursorY)
    (hrow : e.cursorY < len e.buffer)
    (hline : lineAt e.buffer e.cursorY = runesToString R) (hR : ∀ x ∈ R, ValidRune x)
    (hc0 : 0 ≤ e.cursorX) (hc : e.cursorX ≤ len R)
    (hkeys : ∀ i ∈ keys, i.ev.key = Key.KeyRune ∧ i.ev.rune ≠ 0 ∧ ValidRune i.ev.rune) :
    ∃ e', run keys e = some e' ∧
      lineAt e'.buffer e.cursorY = runesToString
        (R.take e.cursorX.toNat ++ keys.map (fun i => i.ev.rune) ++ R.drop e.cursorX.toNat) ∧
      stringToRunes (lineAt e'.buffer e.cursorY)
        = R.take e.cursorX.toNat ++ keys.map (fun i => i.ev.rune) ++ R.drop e.cursorX.toNat ∧
      e'.cursorX = e.cursorX + len keys ∧ e'.cursorY = e.cursorY ∧
      len e'.buffer = len e.buffer ∧
      (∀ k : Int, 0 ≤ k → k ≠ e.cursorY → lineAt e'.buffer k = lineAt e.buffer k) := by
  have hvalid : ∀ x ∈ R.take e.cursorX.toNat ++ keys.map (fun i => i.ev.rune)
      ++ R.drop e.cursorX.toNat, ValidRune x := by
    intro x hx
    rcases List.mem_append.1 hx with hx | hx
    · rcases List.mem_append.1 hx with hx | hx
      · exact hR x (List.mem_of_mem_take hx)
      · obtain ⟨i, hi, rfl⟩ := List.mem_map.1 hx
        exact (hkeys i hi).2.2
    · exact hR x (List.mem_of_mem_drop hx)
  refine ⟨_, typing_run keys e R hmode hrow0 hrow hline hR hc0 hc hkeys, ?_, ?_, rfl, rfl, ?_, ?_⟩
  · exact lineAt_set_self _ _ _ hrow0 hrow
  · show stringToRunes (lineAt (e.buffer.set e.cursorY.toNat _) e.cursorY) = _
    rw [lineAt_set_self _ _ _ hrow0 hrow]
    exact stringToRunes_runesToString _ hvalid
  · simp [len]
  · intro k hk0 hk
    exact lineAt_set_ne _ _ _ _ hrow0 hk0 hk

/-- Example: typing `€`, `a` at code-point column 1 of the line `"éé"`. -/
theorem typing_inserts_code_points_example :
    ∃ e', run [keyRune 0x20AC, keyRune 97] sampleAccented = some e' ∧
      lineAt e'.buffer sampleAccented.cursorY = runesToString
        (List.take sampleAccented.cursorX.toNat [0xE9, 0xE9]
          ++ [keyRune 0x20AC, keyRune 97].map (fun i => i.ev.rune)
          ++ List.drop sampleAccented.cursorX.toNat [0xE9, 0xE9]) ∧
      stringToRunes (lineAt e'.buffer sampleAccented.cursorY)
        = List.take sampleAccented.cursorX.toNat [0xE9, 0xE9]
          ++ [keyRune 0x20AC, keyRune 97].map (fun i => i.ev.rune)
          ++ List.drop sampleAccented.cursorX.toNat [0xE9, 0xE9] ∧
      e'.cursorX = sampleAccented.cursorX + len [keyRune 0x20AC, keyRune 97] ∧
      e'.cursorY = sampleAccented.cursorY ∧
      len e'.buffer = len sampleAccented.buffer ∧
      (∀ k : Int, 0 ≤ k → k ≠ sampleAccented.cursorY →
        lineAt e'.buffer k = lineAt sampleAccented.buffer k) :=
  typing_inserts_code_points sampleAccented [keyRune 0x20AC, keyRune 97] [0xE9, 0xE9]
    (by decide) (by decide) (by decide) (by decide) (by decide) (by decide) (by decide)
    (by decide)

/-! ### Load and save: `strings.Split` and `strings.Join` -/

theorem splitLines_ne_nil (c : GoString) : splitLines c ≠ [] := by
  induction c with
  | nil => simp [splitLines]
  | cons b t ih =>
    simp only [splitLines]
    split_ifs
    · simp
    · cases h : splitLines t with
      | nil => exact absurd h ih
      | cons l ls => simp

theorem joinLines_cons_cons (l l2 : GoString) (ls : List GoString) :
    joinLines (l :: l2 :: ls) = l ++ (0x0A : Byte) :: joinLines (l2 :: ls) := rfl

theorem joinLines_cons_of_ne_nil (l : GoString) (ls : List GoString) (h : ls ≠ []) :
    joinLines (l :: ls) = l ++ (0x0A : Byte) :: joinLines ls := by
  cases ls with
  | nil => exact absurd rfl h
  | cons l2 rest => rfl

theorem joinLines_consByte (b : Byte) (l : GoString) (ls : List GoString) :
    joinLines ((b :: l) :: ls) = b :: joinLines (l :: ls) := by
  cases ls with
  | nil => rfl
  | cons l2 rest => rfl

theorem joinLines_splitLines (c : GoString) : joinLines (splitLines c) = c := by
  induction c with
  | nil => rfl
  | cons b t ih =>
    simp only [splitLines]
    split_ifs with hb
    · rw [joinLines_cons_of_ne_nil _ _ (splitLines_ne_nil t), ih, hb]
      rfl
    · cases h : splitLines t with
      | nil => exact absurd h (splitLines_ne_nil t)
      | cons l ls =>
        rw [h] at ih
        simp only [joinLines_consByte, ih]

theorem splitLines_newline (t : GoString) :
    splitLines ((0x0A : Byte) :: t) = [] :: splitLines t := by
  simp [splitLines]

theorem splitLines_other (b : Byte) (t l : GoString) (ls : List GoString) (hb : b ≠ 0x0A)
    (h : splitLines t = l :: ls) : splitLines (b :: t) = (b :: l) :: ls := by
  simp [splitLines, hb, h]

theorem splitLines_append_newline (c : GoString) :
    splitLines (c ++ [(0x0A : Byte)]) = splitLines c ++ [[]] := by
  induction c with
  | nil => simp [splitLines]
  | cons b t ih =>
    rw [List.cons_append]
    by_cases hb : b = 0x0A
    · subst hb
      rw [splitLines_newline, splitLines_newline, ih, List.cons_append]
    · cases h : splitLines t with
      | nil => exact absurd h (splitLines_ne_nil t)
      | cons l ls =>
        rw [h] at ih
        rw [splitLines_other b _ l (ls ++ [[]]) hb (by rw [ih, List.cons_append]),
          splitLines_other b t l ls hb h, List.cons_append]

/-- C14: for every file content `c` (any bytes, with or without a trailing
newline, also empty), loading it (`strings.Split` on `"\n"`) and saving the
unedited document (`strings.Join` with `"\n"`) hands exactly `c` to the write:
`join(split(c)) = c`; and a trailing newline in the content yields a trailing
empty line in the document. -/
theorem load_then_save_is_identity (fileName c : GoString) :
    saveFile (startSession fileName c) = c ∧
    joinLines (splitLines c) = c ∧
    (startSession fileName (c ++ [(0x0A : Byte)])).buffer
      = (startSession fileName c).buffer ++ [[]] ∧
    (splitLines (c ++ [(0x0A : Byte)])).getLast? = some [] := by
  refine ⟨joinLines_splitLines c, joinLines_splitLines c, splitLines_append_newline c, ?_⟩
  rw [splitLines_append_newline]
  simp

theorem splitLines_no_newline (l : GoString) (h : ∀ b ∈ l, b ≠ (0x0A : Byte)) :
    splitLines l = [l] := by
  induction l with
  | nil => rfl
  | cons b t ih =>
    exact splitLines_other b t t [] (h b (List.mem_cons_self _ _))
      (ih (fun x hx => h x (List.mem_cons_of_mem _ hx)))

theorem splitLines_line_newline (l rest : GoString) (h : ∀ b ∈ l, b ≠ (0x0A : Byte)) :
    splitLines (l ++ (0x0A : Byte) :: rest) = l :: splitLines rest := by
  induction l with
  | nil => exact splitLines_newline rest
  | cons b t ih =>
    rw [List.cons_append]
    exact splitLines_other b _ t (splitLines rest) (h b (List.mem_cons_self _ _))
      (ih (fun x hx => h x (List.mem_cons_of_mem _ hx)))

theorem splitLines_joinLines (ls : List GoString) (hne : ls ≠ [])
    (h : ∀ l ∈ ls, ∀ b ∈ l, b ≠ (0x0A : Byte)) : splitLines (joinLines ls) = ls := by
  induction ls with
  | nil => exact absurd rfl hne
  | cons l rest ih =>
    cases rest with
    | nil => exact splitLines_no_newline l (h l (List.mem_cons_self _ _))
    | cons l2 rest2 =>
      rw [joinLines_cons_cons, splitLines_line_newline _ _ (h l (List.mem_cons_self _ _)),
        ih (by simp) (fun x hx => h x (List.mem_cons_of_mem _ hx))]

/-- C18: for every document with at least one line in which no line contains
a newline byte, splitting the saved text on `"\n"` gives back the same lines:
`split(join(lines)) = lines`, so loading what `saveFile` writes restores the
buffer; for the empty sequence of lines the equation fails, the reload
yields one empty line. -/
theorem save_then_load_restores_lines (e : Editor) (fileName : GoString)
    (hne : e.buffer ≠ []) (hnl : ∀ l ∈ e.buffer, ∀ b ∈ l, b ≠ (0x0A : Byte)) :
    splitLines (joinLines e.buffer) = e.buffer ∧
    (startSession fileName (saveFile e)).buffer = e.buffer ∧
    splitLines (joinLines []) = [[]] ∧ splitLines (joinLines []) ≠ [] := by
  refine ⟨splitLines_joinLines _ hne hnl, splitLines_joinLines _ hne hnl, rfl, ?_⟩
  exact splitLines_ne_nil _

/-- Instance of C18: the buffer of the three-line sample session. -/
theorem save_then_load_restores_lines_witness :
    splitLines (joinLines sampleThreeLines.buffer) = sampleThreeLines.buffer ∧
    (startSession (ascii "g") (saveFile sampleThreeLines)).buffer = sampleThreeLines.buffer ∧
    splitLines (joinLines []) = [[]] ∧ splitLines (joinLines []) ≠ [] :=
  save_then_load_restores_lines sampleThreeLines (ascii "g") (by decide)
    (by
      rw [show sampleThreeLines.buffer = [[0x61, 0x62], [0x63, 0x64], [0x65, 0x66]] from by
        decide]
      simp)

/-! ### Command mode -/

theorem command_enter_eq (e : Editor) (i : Input) (hmode : e.mode = Mode.ModeCommand)
    (hkey : i.ev.key = Key.KeyEnter) :
    step i e = some { executeCommand i.saveErr e with
      commandBuffer := [], mode := Mode.ModeNormal } := by
  have hm : (executeCommand i.saveErr e).mode = Mode.ModeCommand := by
    simp only [executeCommand]
    split_ifs <;> first | exact hmode | (cases i.saveErr <;> exact hmode)
  simp only [step, hmode, processCommandMode, hkey, hm, if_true]

/-- C12: for every command-line text and every outcome of the storage write,
Enter in Command mode succeeds and the quit flag afterwards equals
(quit before) OR (trimmed command is `q` or `q!`) OR (trimmed command is `wq`
AND the save succeeded); `w` leaves the quit flag as it was, `wq` sets it only
if the save succeeded, and on a failed save for `w` or `wq` the message is
`"Error saving file: "` followed by the error text, the mode is Normal and the
document is unmodified. -/
theorem command_enter_sets_quit_flag (e : Editor) (i : Input)
    (hmode : e.mode = Mode.ModeCommand) (hkey : i.ev.key = Key.KeyEnter) :
    ∃ e', step i e = some e' ∧
      e'.quit = (e.quit || decide (trimSpace e.commandBuffer = ascii "q")
        || decide (trimSpace e.commandBuffer = ascii "q!")
        || (decide (trimSpace e.commandBuffer = ascii "wq") && i.saveErr.isNone)) ∧
      (trimSpace e.commandBuffer = ascii "w" → e'.quit = e.quit) ∧
      (trimSpace e.commandBuffer = ascii "wq" → e.quit = false →
        (e'.quit = true ↔ i.saveErr = none)) ∧
      (∀ msg, i.saveErr = some msg →
        trimSpace e.commandBuffer = ascii "w" ∨ trimSpace e.commandBuffer = ascii "wq" →
        e'.message = ascii "Error saving file: " ++ msg ∧ e'.quit = e.quit) ∧
      e'.mode = Mode.ModeNormal ∧ e'.buffer = e.buffer := by
  have hwq : ascii "w" ≠ ascii "q" := by decide
  have hwwq : ascii "w" ≠ ascii "wq" := by decide
  have hwqb : ascii "w" ≠ ascii "q!" := by decide
  have hqwq : ascii "q" ≠ ascii "wq" := by decide
  have hqqb : ascii "q" ≠ ascii "q!" := by decide
  have hwqqb : ascii "wq" ≠ ascii "q!" := by decide
  refine ⟨_, command_enter_eq e i hmode hkey, ?_, ?_, ?_, ?_, rfl, ?_⟩
  · simp only [executeCommand]
    by_cases h1 : trimSpace e.commandBuffer = ascii "w"
    · cases hs : i.saveErr <;> simp [h1, hwq, hwwq, hwqb]
    · by_cases h2 : trimSpace e.commandBuffer = ascii "q"
      · simp [h2, hwq.symm]
      · by_cases h3 : trimSpace e.commandBuffer = ascii "wq"
        · cases hs : i.saveErr <;> simp [h3, hwwq.symm, hqwq.symm, hwqqb]
        · by_cases h4 : trimSpace e.commandBuffer = ascii "q!"
          · simp [h4, hwqb.symm, hqqb.symm, hwqqb.symm]
          · simp [h1, h2, h3, h4]
  · intro h1
    simp only [executeCommand, h1, if_true]
    cases i.saveErr <;> rfl
  · intro h3 hq
    simp only [executeCommand, h3, hwwq.symm, hqwq.symm, if_true, if_false]
    cases hs : i.saveErr <;> simp [hq]
  · intro msg hs hc
    rcases hc with h1 | h3
    · simp [executeCommand, h1, hs]
    · simp [executeCommand, h3, hwwq.symm, hqwq.symm, hs]
  · simp only [executeCommand]
    split_ifs <;> first | rfl | (cases i.saveErr <;> rfl)

/-- Instance of C12: `:wq` followed by Enter when the write fails with `"disk full"`. -/
theorem command_enter_sets_quit_flag_witness :
    ∃ e', step (enterFailingSave (ascii "disk full")) (sampleCommand (ascii "wq")) = some e' ∧
      e'.quit = ((sampleCommand (ascii "wq")).quit
        || decide (trimSpace (sampleCommand (ascii "wq")).commandBuffer = ascii "q")
        || decide (trimSpace (sampleCommand (ascii "wq")).commandBuffer = ascii "q!")
        || (decide (trimSpace (sampleCommand (ascii "wq")).commandBuffer = ascii "wq")
            && (enterFailingSave (ascii "disk full")).saveErr.isNone)) ∧
      (trimSpace (sampleCommand (ascii "wq")).commandBuffer = ascii "w" →
        e'.quit = (sampleCommand (ascii "wq")).quit) ∧
      (trimSpace (sampleCommand (ascii "wq")).commandBuffer = ascii "wq" →
        (sampleCommand (ascii "wq")).quit = false →
        (e'.quit = true ↔ (enterFailingSave (ascii "disk full")).saveErr = none)) ∧
      (∀ msg, (enterFailingSave (ascii "disk full")).saveErr = some msg →
        trimSpace (sampleCommand (ascii "wq")).commandBuffer = ascii "w" ∨
          trimSpace (sampleCommand (ascii "wq")).commandBuffer = ascii "wq" →
        e'.message = ascii "Error saving file: " ++ msg ∧
          e'.quit = (sampleCommand (ascii "wq")).quit) ∧
      e'.mode = Mode.ModeNormal ∧ e'.buffer = (sampleCommand (ascii "wq")).buffer :=
  command_enter_sets_quit_flag (sampleCommand (ascii "wq"))
    (enterFailingSave (ascii "disk full")) rfl rfl

/-- C13: in Command mode, when the trimmed command buffer is none of `w`, `q`,
`wq`, `q!` (for example `bogus`), Enter succeeds and sets the message to
`"Unknown command: "` followed by the trimmed command (so the message
contains it), leaves the document, the cursor and the quit flag unchanged
(every field but `message`, `commandBuffer` and `mode` is untouched), and ends
in Normal mode with an empty command buffer. -/
theorem unknown_command_is_reported (e : Editor) (i : Input)
    (hmode : e.mode = Mode.ModeCommand) (hkey : i.ev.key = Key.KeyEnter)
    (hw : trimSpace e.commandBuffer ≠ ascii "w") (hq : trimSpace e.commandBuffer ≠ ascii "q")
    (hwq : trimSpace e.commandBuffer ≠ ascii "wq")
    (hqb : trimSpace e.commandBuffer ≠ ascii "q!") :
    ∃ e', step i e = some e' ∧
      e' = { e with message := ascii "Unknown command: " ++ trimSpace e.commandBuffer,
                    commandBuffer := [], mode := Mode.ModeNormal } ∧
      e'.message = ascii "Unknown command: " ++ trimSpace e.commandBuffer ∧
      List.IsInfix (trimSpace e.commandBuffer) e'.message ∧
      e'.buffer = e.buffer ∧ e'.cursorX = e.cursorX ∧ e'.cursorY = e.cursorY ∧
      e'.quit = e.quit ∧ e'.mode = Mode.ModeNormal ∧ e'.commandBuffer = [] := by
  have hex : executeCommand i.saveErr e
      = { e with message := ascii "Unknown command: " ++ trimSpace e.commandBuffer } := by
    simp only [executeCommand, hw, hq, hwq, hqb, if_false]
  have hstep := command_enter_eq e i hmode hkey
  rw [hex] at hstep
  exact ⟨_, hstep, rfl, rfl, (List.suffix_append _ _).isInfix,
    rfl, rfl, rfl, rfl, rfl, rfl⟩

/-- Instance of C13: `:bogus` followed by Enter. -/
theorem unknown_command_is_reported_witness :
    ∃ e', step (keyNamed Key.KeyEnter) (sampleCommand (ascii " bogus ")) = some e' ∧
      e' = { sampleCommand (ascii " bogus ") with
              message := ascii "Unknown command: "
                ++ trimSpace (sampleCommand (ascii " bogus ")).commandBuffer,
              commandBuffer := [], mode := Mode.ModeNormal } ∧
      e'.message = ascii "Unknown command: "
        ++ trimSpace (sampleCommand (ascii " bogus ")).commandBuffer ∧
      List.IsInfix (trimSpace (sampleCommand (ascii " bogus ")).commandBuffer) e'.message ∧
      e'.buffer = (sampleCommand (ascii " bogus ")).buffer ∧
      e'.cursorX = (sampleCommand (ascii " bogus ")).cursorX ∧
      e'.cursorY = (sampleCommand (ascii " bogus ")).cursorY ∧
      e'.quit = (sampleCommand (ascii " bogus ")).quit ∧
      e'.mode = Mode.ModeNormal ∧ e'.commandBuffer = [] :=
  unknown_command_is_reported (sampleCommand (ascii " bogus ")) (keyNamed Key.KeyEnter) rfl rfl
    (by decide) (by decide) (by decide) (by decide)

/-! ### What the handlers leave untouched -/

theorem SameExceptView.refl (e : Editor) : SameExceptView e e :=
  ⟨rfl, rfl, rfl, rfl, rfl, rfl, rfl⟩

theorem adjustOffset_frame (h : Int) (e : Editor) : SameExceptView e (adjustOffset h e) := by
  unfold adjustOffset
  simp only []
  split_ifs <;> exact ⟨rfl, rfl, rfl, rfl, rfl, rfl, rfl⟩

theorem moveLeft_frame (e e' : Editor) (h : moveLeft e = some e') : SameExceptView e e' := by
  unfold moveLeft at h
  split at h <;> (injection h with h; subst h; exact ⟨rfl, rfl, rfl, rfl, rfl, rfl, rfl⟩)

theorem moveRight_frame (e e' : Editor) (h : moveRight e = some e') : SameExceptView e e' := by
  simp only [moveRight, Option.bind_eq_bind, Option.bind_eq_some, Option.pure_def] at h
  obtain ⟨line, _, h⟩ := h
  split at h <;> (injection h with h; subst h; exact ⟨rfl, rfl, rfl, rfl, rfl, rfl, rfl⟩)

theorem clampColumn_frame (e e' : Editor) (h : clampColumn e = some e') :
    SameExceptView e e' := by
  simp only [clampColumn, Option.bind_eq_bind, Option.bind_eq_some, Option.pure_def] at h
  obtain ⟨line, _, h⟩ := h
  split at h
  · simp only [Option.bind_eq_some] at h
    obtain ⟨line2, _, h⟩ := h
    injection h with h; subst h; exact ⟨rfl, rfl, rfl, rfl, rfl, rfl, rfl⟩
  · injection h with h; subst h; exact ⟨rfl, rfl, rfl, rfl, rfl, rfl, rfl⟩

theorem SameExceptView.trans {a b c : Editor} (h1 : SameExceptView a b)
    (h2 : SameExceptView b c) : SameExceptView a c := by
  obtain ⟨a1, a2, a3, a4, a5, a6, a7⟩ := h1
  obtain ⟨b1, b2, b3, b4, b5, b6, b7⟩ := h2
  exact ⟨b1.trans a1, b2.trans a2, b3.trans a3, b4.trans a4, b5.trans a5, b6.trans a6,
    b7.trans a7⟩

theorem moveUp_frame (h : Int) (e e' : Editor) (hs : moveUp h e = some e') :
    SameExceptView e e' := by
  unfold moveUp at hs
  split at hs
  · exact SameExceptView.trans
      (SameExceptView.trans (b := { e with cursorY := e.cursorY - 1 })
        ⟨rfl, rfl, rfl, rfl, rfl, rfl, rfl⟩ (adjustOffset_frame h _))
      (clampColumn_frame _ _ hs)
  · injection hs with hs; subst hs; exact SameExceptView.refl e

theorem moveDown_frame (h : Int) (e e' : Editor) (hs : moveDown h e = some e') :
    SameExceptView e e' := by
  unfold moveDown at hs
  split at hs
  · exact SameExceptView.trans
      (SameExceptView.trans (b := { e with cursorY := e.cursorY + 1 })
        ⟨rfl, rfl, rfl, rfl, rfl, rfl, rfl⟩ (adjustOffset_frame h _))
      (clampColumn_frame _ _ hs)
  · injection hs with hs; subst hs; exact SameExceptView.refl e

theorem deleteChar_mode (e e' : Editor) (h : deleteChar e = some e') : e'.mode = e.mode := by
  simp only [deleteChar, Option.bind_eq_bind, Option.bind_eq_some, Option.pure_def] at h
  obtain ⟨line, _, h⟩ := h
  split at h
  · simp only [Option.bind_eq_some] at h
    obtain ⟨front, _, back, _, buf, _, h⟩ := h
    injection h with h; subst h; rfl
  · injection h with h; subst h; rfl

theorem deleteLineKey_mode (e e' : Editor) (h : deleteLineKey e = some e') :
    e'.mode = e.mode := by
  unfold deleteLineKey at h
  split at h
  · simp only [Option.bind_eq_bind, Option.bind_eq_some, Option.pure_def] at h
    obtain ⟨front, _, back, _, h⟩ := h
    injection h with h; subst h; rfl
  · injection h with h; subst h; rfl

theorem insertBackspace_mode (e e' : Editor) (h : insertBackspace e = some e') :
    e'.mode = e.mode := by
  unfold insertBackspace at h
  split at h
  · simp only [Option.bind_eq_bind, Option.bind_eq_some, Option.pure_def] at h
    obtain ⟨line, _, front, _, back, _, buf, _, h⟩ := h
    injection h with h; subst h; rfl
  · injection h with h; subst h; rfl

theorem insertRune_mode (r : Int) (e e' : Editor) (h : insertRune r e = some e') :
    e'.mode = e.mode := by
  simp only [insertRune, Option.bind_eq_bind, Option.pure_def] at h
  split at h
  · simp only [Option.bind_eq_some] at h
    obtain ⟨line, _, h⟩ := h
    split at h
    · simp only [Option.bind_eq_some, Option.some_bind] at h
      obtain ⟨buf, _, h⟩ := h
      injection h with h; subst h; rfl
    · simp only [Option.bind_eq_some, Option.some_bind] at h
      obtain ⟨front, _, back, _, buf, _, h⟩ := h
      injection h with h; subst h; rfl
  · injection h with h; subst h; rfl

theorem insertEnter_mode (h : Int) (e e' : Editor) (hs : insertEnter h e = some e') :
    e'.mode = e.mode := by
  simp only [insertEnter, Option.bind_eq_bind, Option.pure_def, Option.bind_eq_some] at hs
  obtain ⟨line, _, hs⟩ := hs
  split at hs
  · simp only [Option.bind_eq_some, Option.some_bind] at hs
    obtain ⟨tail, _, head, _, b, _, front, _, back, _, hs⟩ := hs
    injection hs with hs; subst hs
    simp
  · simp only [Option.bind_eq_some, Option.some_bind] at hs
    obtain ⟨front, _, back, _, hs⟩ := hs
    injection hs with hs; subst hs
    simp

/-! ### The mode transitions -/

theorem runeSwitch_mode (h : Int) (ev : EventKey) (e e' : Editor)
    (hm : e.mode = Mode.ModeNormal)
    (hs : (if ev.rune = 104 then moveLeft e
      else if ev.rune = 108 then moveRight e
      else if ev.rune = 107 then moveUp h e
      else if ev.rune = 106 then moveDown h e
      else if ev.rune = 105 then
        some { e with mode := Mode.ModeInsert, message := ascii "insert mode" }
      else if ev.rune = 58 then some { e with mode := Mode.ModeCommand, commandBuffer := [] }
      else if ev.rune = 120 then deleteChar e
      else if ev.rune = 100 then deleteLineKey e
      else some { e with lastKey := 0 }) = some e') :
    e'.mode = (if ev.rune = 105 then Mode.ModeInsert
      else if ev.rune = 58 then Mode.ModeCommand else Mode.ModeNormal) := by
  by_cases h1 : ev.rune = 104
  · rw [if_pos h1] at hs
    rw [if_neg (by omega), if_neg (by omega)]
    exact (moveLeft_frame e e' hs).2.2.1.trans hm
  rw [if_neg h1] at hs
  by_cases h2 : ev.rune = 108
  · rw [if_pos h2] at hs
    rw [if_neg (by omega), if_neg (by omega)]
    exact (moveRight_frame e e' hs).2.2.1.trans hm
  rw [if_neg h2] at hs
  by_cases h3 : ev.rune = 107
  · rw [if_pos h3] at hs
    rw [if_neg (by omega), if_neg (by omega)]
    exact (moveUp_frame h e e' hs).2.2.1.trans hm
  rw [if_neg h3] at hs
  by_cases h4 : ev.rune = 106
  · rw [if_pos h4] at hs
    rw [if_neg (by omega), if_neg (by omega)]
    exact (moveDown_frame h e e' hs).2.2.1.trans hm
  rw [if_neg h4] at hs
  by_cases h5 : ev.rune = 105
  · rw [if_pos h5] at hs
    rw [if_pos h5]
    injection hs with hs; subst hs; rfl
  rw [if_neg h5] at hs
  rw [if_neg h5]
  by_cases h6 : ev.rune = 58
  · rw [if_pos h6] at hs
    rw [if_pos h6]
    injection hs with hs; subst hs; rfl
  rw [if_neg h6] at hs
  rw [if_neg h6]
  by_cases h7 : ev.rune = 120
  · rw [if_pos h7] at hs
    exact (deleteChar_mode e e' hs).trans hm
  rw [if_neg h7] at hs
  by_cases h8 : ev.rune = 100
  · rw [if_pos h8] at hs
    exact (deleteLineKey_mode e e' hs).trans hm
  rw [if_neg h8] at hs
  injection hs with hs; subst hs; exact hm

theorem specNextMode_normal_other (ev : EventKey) (hL : ev.key ≠ Key.KeyLeft)
    (hR : ev.key ≠ Key.KeyRight) (hU : ev.key ≠ Key.KeyUp) (hD : ev.key ≠ Key.KeyDown)
    (hC : ev.key ≠ Key.KeyCtrlC) :
    specNextMode Mode.ModeNormal ev = (if ev.rune = 105 then Mode.ModeInsert
      else if ev.rune = 58 then Mode.ModeCommand else Mode.ModeNormal) := by
  simp [specNextMode, carriesChar, hL, hR, hU, hD, hC]

theorem specNextMode_normal_named (ev : EventKey)
    (hk : ev.key = Key.KeyLeft ∨ ev.key = Key.KeyRight ∨ ev.key = Key.KeyUp
      ∨ ev.key = Key.KeyDown ∨ ev.key = Key.KeyCtrlC) :
    specNextMode Mode.ModeNormal ev = Mode.ModeNormal := by
  rcases hk with hk | hk | hk | hk | hk <;> simp [specNextMode, carriesChar, hk]

theorem processNormalMode_mode (h : Int) (ev : EventKey) (e e' : Editor)
    (hm : e.mode = Mode.ModeNormal) (hs : processNormalMode h ev e = some e') :
    e'.mode = specNextMode Mode.ModeNormal ev := by
  unfold processNormalMode at hs
  cases hk : ev.key <;> simp only [hk] at hs
  case KeyLeft =>
    rw [specNextMode_normal_named ev (by simp [hk])]
    exact (moveLeft_frame e e' hs).2.2.1.trans hm
  case KeyRight =>
    rw [specNextMode_normal_named ev (by simp [hk])]
    exact (moveRight_frame e e' hs).2.2.1.trans hm
  case KeyUp =>
    rw [specNextMode_normal_named ev (by simp [hk])]
    exact (moveUp_frame h e e' hs).2.2.1.trans hm
  case KeyDown =>
    rw [specNextMode_normal_named ev (by simp [hk])]
    exact (moveDown_frame h e e' hs).2.2.1.trans hm
  case KeyCtrlC =>
    rw [specNextMode_normal_named ev (by simp [hk])]
    injection hs with hs; subst hs; exact hm
  all_goals
    rw [specNextMode_normal_other ev (by simp [hk]) (by simp [hk]) (by simp [hk])
      (by simp [hk]) (by simp [hk])]
    exact runeSwitch_mode h ev e e' hm hs

theorem processInsertMode_mode (h : Int) (ev : EventKey) (e e' : Editor)
    (hm : e.mode = Mode.ModeInsert) (hs : processInsertMode h ev e = some e') :
    e'.mode = specNextMode Mode.ModeInsert ev := by
  unfold processInsertMode at hs
  cases hk : ev.key <;> simp only [hk] at hs <;>
    simp only [specNextMode, hk, reduceCtorEq, if_false, if_true] <;>
    first
    | exact (insertEnter_mode h e e' hs).trans hm
    | exact (insertBackspace_mode e e' hs).trans hm
    | exact (insertRune_mode _ e e' hs).trans hm
    | (injection hs with hs; subst hs; rfl)

theorem executeCommand_mode (saveErr : Option GoString) (e : Editor) :
    (executeCommand saveErr e).mode = e.mode := by
  simp only [executeCommand]
  split_ifs <;> first | rfl | (cases saveErr <;> rfl)

theorem processCommandMode_mode (saveErr : Option GoString) (ev : EventKey) (e e' : Editor)
    (hm : e.mode = Mode.ModeCommand) (hs : processCommandMode saveErr ev e = some e') :
    e'.mode = specNextMode Mode.ModeCommand ev := by
  have hx := executeCommand_mode saveErr e
  unfold processCommandMode at hs
  cases hk : ev.key <;> simp only [hk] at hs <;>
    simp only [specNextMode, hk, reduceCtorEq, or_false, or_true, or_self, if_false, if_true]
  case KeyEsc => injection hs with hs; subst hs; rfl
  case KeyEnter =>
    rw [hm] at hx
    simp only [hx, if_true] at hs
    injection hs with hs; subst hs; rfl
  case KeyBackspace =>
    split at hs
    · simp only [Option.bind_eq_bind, Option.pure_def, Option.bind_eq_some] at hs
      obtain ⟨rest, _, hs⟩ := hs
      injection hs with hs; subst hs; exact hm
    · injection hs with hs; subst hs; exact hm
  case KeyBackspace2 =>
    split at hs
    · simp only [Option.bind_eq_bind, Option.pure_def, Option.bind_eq_some] at hs
      obtain ⟨rest, _, hs⟩ := hs
      injection hs with hs; subst hs; exact hm
    · injection hs with hs; subst hs; exact hm
  all_goals (split at hs <;> (injection hs with hs; subst hs; exact hm))

theorem step_mode (i : Input) (e e' : Editor) (hstep : step i e = some e') :
    e'.mode = specNextMode e.mode i.ev := by
  unfold step at hstep
  cases hm : e.mode <;> simp only [hm] at hstep
  · exact processNormalMode_mode _ _ e e' hm hstep
  · exact processInsertMode_mode _ _ e e' hm hstep
  · exact processCommandMode_mode _ _ e e' hm hstep

theorem transition_succeeds (i : Input) (e : Editor)
    (h : specNextMode e.mode i.ev ≠ e.mode) : (step i e).isSome = true := by
  unfold step
  cases hm : e.mode <;> simp only [hm, specNextMode] at h ⊢
  · unfold processNormalMode
    by_cases h5 : carriesChar i.ev 105 = true
    · simp only [carriesChar, decide_eq_true_eq] at h5
      obtain ⟨hr, h1, h2, h3, h4, h6⟩ := h5
      cases hk : i.ev.key <;> simp_all
    · by_cases h6 : carriesChar i.ev 58 = true
      · simp only [carriesChar, decide_eq_true_eq] at h6
        obtain ⟨hr, h1, h2, h3, h4, h7⟩ := h6
        cases hk : i.ev.key <;> simp_all
      · simp [h5, h6] at h
  · unfold processInsertMode
    by_cases hk : i.ev.key = Key.KeyEsc
    · simp [hk]
    · simp [hk] at h
  · unfold processCommandMode
    by_cases hk : i.ev.key = Key.KeyEsc
    · simp [hk]
    · by_cases hk2 : i.ev.key = Key.KeyEnter
      · simp only [hk2]
        split_ifs <;> rfl
      · simp [hk, hk2] at h

/-- C11: the mode after a key event is the one the transition table gives:
Normal goes to Insert on `i` and to Command on `:`, Insert goes to Normal on
Escape, Command goes to Normal on Escape or Enter, and for every other
(mode, key) pair the mode is unchanged; `executeCommand` itself never changes
the mode, so Enter in Command mode always ends in Normal mode; and every key
event for which the table changes the mode is processed without failure. -/
theorem mode_follows_transition_table (e e' : Editor) (i : Input)
    (hstep : step i e = some e') :
    e'.mode = specNextMode e.mode i.ev ∧
    (e'.mode ≠ e.mode →
      (e.mode = Mode.ModeNormal ∧ e'.mode = Mode.ModeInsert ∧ carriesChar i.ev 105 = true) ∨
      (e.mode = Mode.ModeNormal ∧ e'.mode = Mode.ModeCommand ∧ carriesChar i.ev 58 = true) ∨
      (e.mode = Mode.ModeInsert ∧ e'.mode = Mode.ModeNormal ∧ i.ev.key = Key.KeyEsc) ∨
      (e.mode = Mode.ModeCommand ∧ e'.mode = Mode.ModeNormal ∧
        (i.ev.key = Key.KeyEsc ∨ i.ev.key = Key.KeyEnter))) ∧
    (executeCommand i.saveErr e).mode = e.mode ∧
    (e.mode = Mode.ModeCommand → i.ev.key = Key.KeyEnter → e'.mode = Mode.ModeNormal) ∧
    (∀ (e0 : Editor) (i0 : Input),
      specNextMode e0.mode i0.ev ≠ e0.mode → (step i0 e0).isSome = true) := by
  have hmode := step_mode i e e' hstep
  refine ⟨hmode, ?_, executeCommand_mode _ _, ?_, fun e0 i0 h => transition_succeeds i0 e0 h⟩
  · intro hne
    rw [hmode] at hne ⊢
    cases hm : e.mode <;> simp only [hm, specNextMode] at hne ⊢
    · by_cases h5 : carriesChar i.ev 105 = true
      · simp [h5]
      · by_cases h6 : carriesChar i.ev 58 = true
        · simp [h5, h6]
        · simp [h5, h6] at hne
    · by_cases hk : i.ev.key = Key.KeyEsc
      · simp [hk]
      · simp [hk] at hne
    · by_cases hk : i.ev.key = Key.KeyEsc ∨ i.ev.key = Key.KeyEnter
      · simp [hk]
      · simp [hk] at hne
  · intro hm hk
    rw [hmode, hm]
    simp [specNextMode, hk]

/-- Instance of C11: `i` in Normal mode on the two-line sample session. -/
theorem mode_follows_transition_table_witness :
    step (keyRune 105) sampleTwoLines
      = some { sampleTwoLines with mode := Mode.ModeInsert, message := ascii "insert mode" } ∧
    ({ sampleTwoLines with mode := Mode.ModeInsert, message := ascii "insert mode" } : Editor).mode
      = specNextMode sampleTwoLines.mode (keyRune 105).ev :=
  ⟨by decide,
    (mode_follows_transition_table sampleTwoLines
      { sampleTwoLines with mode := Mode.ModeInsert, message := ascii "insert mode" }
      (keyRune 105) (by decide)).1⟩

/-! ### Which handler a navigation key runs -/

theorem normal_up (h : Int) (ev : EventKey) (e : Editor) (hk : isUpKey ev = true) :
    processNormalMode h ev e = moveUp h e := by
  simp only [isUpKey, decide_eq_true_eq] at hk
  unfold processNormalMode
  rcases hk with hk | ⟨hr, h1, h2, h3, h4⟩
  · simp only [hk]
  · cases hkey : ev.key <;> simp_all

theorem normal_down (h : Int) (ev : EventKey) (e : Editor) (hk : isDownKey ev = true) :
    processNormalMode h ev e = moveDown h e := by
  simp only [isDownKey, decide_eq_true_eq] at hk
  unfold processNormalMode
  rcases hk with hk | ⟨hr, h1, h2, h3, h4⟩
  · simp only [hk]
  · cases hkey : ev.key <;> simp_all

theorem normal_left (h : Int) (ev : EventKey) (e : Editor) (hk : isLeftKey ev = true) :
    processNormalMode h ev e = moveLeft e := by
  simp only [isLeftKey, decide_eq_true_eq] at hk
  unfold processNormalMode
  rcases hk with hk | ⟨hr, h1, h2, h3, h4⟩
  · simp only [hk]
  · cases hkey : ev.key <;> simp_all

theorem normal_right (h : Int) (ev : EventKey) (e : Editor) (hk : isRightKey ev = true) :
    processNormalMode h ev e = moveRight e := by
  simp only [isRightKey, decide_eq_true_eq] at hk
  unfold processNormalMode
  rcases hk with hk | ⟨hr, h1, h2, h3, h4⟩
  · simp only [hk]
  · cases hkey : ev.key <;> simp_all

theorem isNavKey_cases (ev : EventKey) (hn : isNavKey ev = true) :
    isLeftKey ev = true ∨ isRightKey ev = true ∨ isUpKey ev = true ∨ isDownKey ev = true := by
  simp only [isNavKey, isLeftKey, isRightKey, isUpKey, isDownKey, decide_eq_true_eq] at hn ⊢
  cases hkey : ev.key <;> simp_all <;> omega

/-! ### The viewport -/

theorem adjustOffset_viewport (h : Int) (e : Editor) (hh : 1 ≤ h - 1) (hoff : 0 ≤ e.offsetY)
    (hrow : 0 ≤ e.cursorY) : ViewportOk h (adjustOffset h e) := by
  unfold adjustOffset ViewportOk
  simp only []
  split_ifs with h1 h2
  · exact ⟨hrow, le_refl _, by show e.cursorY < e.cursorY + (h - 1); omega⟩
  · refine ⟨?_, ?_, ?_⟩
    · show 0 ≤ e.cursorY - (h - 1) + 1; omega
    · show e.cursorY - (h - 1) + 1 ≤ e.cursorY; omega
    · show e.cursorY < e.cursorY - (h - 1) + 1 + (h - 1); omega
  · exact ⟨hoff, by omega, by omega⟩

theorem currentLine_isSome (e : Editor) (h0 : 0 ≤ e.cursorY) :
    ∃ line, currentLine e = some line := by
  unfold currentLine cursorIndex
  split_ifs with h1
  · exact ⟨_, indexAt_eq_lineAt _ _ h0 h1⟩
  · exact ⟨_, rfl⟩

theorem clampColumn_view (e : Editor) (h0 : 0 ≤ e.cursorY) :
    ∃ e', clampColumn e = some e' ∧ e'.offsetY = e.offsetY ∧ e'.cursorY = e.cursorY := by
  obtain ⟨line, hl⟩ := currentLine_isSome e h0
  simp only [clampColumn, hl, Option.bind_eq_bind, Option.some_bind, Option.pure_def]
  split_ifs <;> exact ⟨_, rfl, rfl, rfl⟩

theorem ViewportOk_of_view (h : Int) (a b : Editor) (ha : ViewportOk h a)
    (h1 : b.offsetY = a.offsetY) (h2 : b.cursorY = a.cursorY) : ViewportOk h b := by
  unfold ViewportOk at *
  rw [h1, h2]
  exact ha

theorem moveUp_viewport (h : Int) (e : Editor) (hh : 1 ≤ h - 1) (hv : ViewportOk h e) :
    ∃ e', moveUp h e = some e' ∧ ViewportOk h e' := by
  unfold moveUp
  split_ifs with h1
  · obtain ⟨e', he, ho, hy⟩ :=
      clampColumn_view (adjustOffset h { e with cursorY := e.cursorY - 1 })
        (by rw [adjustOffset_cursorY]; show 0 ≤ e.cursorY - 1; omega)
    exact ⟨e', he, ViewportOk_of_view h _ e'
      (adjustOffset_viewport h { e with cursorY := e.cursorY - 1 } hh hv.1
        (by show 0 ≤ e.cursorY - 1; omega)) ho hy⟩
  · exact ⟨e, rfl, hv⟩

theorem moveDown_viewport (h : Int) (e : Editor) (hh : 1 ≤ h - 1) (hv : ViewportOk h e) :
    ∃ e', moveDown h e = some e' ∧ ViewportOk h e' := by
  have hrow : 0 ≤ e.cursorY := le_trans hv.1 hv.2.1
  unfold moveDown
  split_ifs with h1
  · obtain ⟨e', he, ho, hy⟩ :=
      clampColumn_view (adjustOffset h { e with cursorY := e.cursorY + 1 })
        (by rw [adjustOffset_cursorY]; show 0 ≤ e.cursorY + 1; omega)
    exact ⟨e', he, ViewportOk_of_view h _ e'
      (adjustOffset_viewport h { e with cursorY := e.cursorY + 1 } hh hv.1
        (by show 0 ≤ e.cursorY + 1; omega)) ho hy⟩
  · exact ⟨e, rfl, hv⟩

theorem insertEnter_viewport (h : Int) (e e' : Editor) (hh : 1 ≤ h - 1)
    (hv : ViewportOk h e) (hs : insertEnter h e = some e') : ViewportOk h e' := by
  have hrow : 0 ≤ e.cursorY := le_trans hv.1 hv.2.1
  simp only [insertEnter, Option.bind_eq_bind, Option.pure_def, Option.bind_eq_some] at hs
  obtain ⟨line, _, hs⟩ := hs
  split at hs
  · simp only [Option.bind_eq_some, Option.some_bind] at hs
    obtain ⟨tail, _, head, _, b, _, front, _, back, _, hs⟩ := hs
    injection hs with hs; subst hs
    exact adjustOffset_viewport h _ hh hv.1 (by show 0 ≤ e.cursorY + 1; omega)
  · simp only [Option.bind_eq_some, Option.some_bind] at hs
    obtain ⟨front, _, back, _, hs⟩ := hs
    injection hs with hs; subst hs
    exact adjustOffset_viewport h _ hh hv.1 (by show 0 ≤ e.cursorY + 1; omega)

/-- C15: with viewport offset `≥ 0`, cursor row `≥ 0` and visible content
height `≥ 1`, `adjustOffset` yields `0 ≤ offset ≤ row` and
`row < offset + visible_height`; consequently, from a state where this holds,
every vertical motion key of Normal mode (Up, Down, `j`, `k`) is processed
without failure and yields a state where it holds, and so does Enter in
Insert mode (which is processed without failure when the cursor is valid). -/
theorem viewport_follows_cursor (e : Editor) (i : Input) (hh : 1 ≤ i.height - 1)
    (hoff : 0 ≤ e.offsetY) (hrow : 0 ≤ e.cursorY) :
    ViewportOk i.height (adjustOffset i.height e) ∧
    (ViewportOk i.height e → e.mode = Mode.ModeNormal →
      isUpKey i.ev = true ∨ isDownKey i.ev = true →
      ∃ e', step i e = some e' ∧ ViewportOk i.height e') ∧
    (ViewportOk i.height e → e.mode = Mode.ModeInsert → i.ev.key = Key.KeyEnter →
      (∀ e', step i e = some e' → ViewportOk i.height e') ∧
      (CursorOk e → ∃ e', step i e = some e' ∧ ViewportOk i.height e')) := by
  refine ⟨adjustOffset_viewport _ e hh hoff hrow, ?_, ?_⟩
  · intro hv hm hk
    have hstep : step i e = processNormalMode i.height i.ev e := by simp only [step, hm]
    rw [hstep]
    rcases hk with hk | hk
    · rw [normal_up _ _ _ hk]; exact moveUp_viewport _ e hh hv
    · rw [normal_down _ _ _ hk]; exact moveDown_viewport _ e hh hv
  · intro hv hm hk
    have hstep : step i e = insertEnter i.height e := by
      simp only [step, hm, processInsertMode, hk]
    rw [hstep]
    refine ⟨fun e' hs => insertEnter_viewport _ e e' hh hv hs, fun hc => ?_⟩
    exact ⟨_, insertEnter_eq _ e hc,
      insertEnter_viewport _ e _ hh hv (insertEnter_eq _ e hc)⟩

/-- Instance of C15: `j` in Normal mode and Enter in Insert mode on the
two-line sample session, terminal height 24. -/
theorem viewport_follows_cursor_witness :
    ViewportOk 24 (adjustOffset 24 sampleTwoLines) ∧
    (∃ e', step (keyRune 106) sampleTwoLines = some e' ∧ ViewportOk 24 e') ∧
    (∃ e', step (keyNamed Key.KeyEnter) sampleInsert = some e' ∧ ViewportOk 24 e') :=
  ⟨(viewport_follows_cursor sampleTwoLines (keyRune 106) (by decide) (by decide)
      (by decide)).1,
    (viewport_follows_cursor sampleTwoLines (keyRune 106) (by decide) (by decide)
      (by decide)).2.1 (by decide) rfl (by decide),
    ((viewport_follows_cursor sampleInsert (keyNamed Key.KeyEnter) (by decide) (by decide)
      (by decide)).2.2 (by decide) rfl rfl).2 (by decide)⟩

/-! ### The frame of the navigation keys -/

theorem nav_step_frame (i : Input) (e e' : Editor) (hmode : e.mode = Mode.ModeNormal)
    (hnav : isNavKey i.ev = true) (hs : step i e = some e') : SameExceptView e e' := by
  have hstep : step i e = processNormalMode i.height i.ev e := by simp only [step, hmode]
  rw [hstep] at hs
  rcases isNavKey_cases i.ev hnav with hk | hk | hk | hk
  · rw [normal_left _ _ _ hk] at hs; exact moveLeft_frame e e' hs
  · rw [normal_right _ _ _ hk] at hs; exact moveRight_frame e e' hs
  · rw [normal_up _ _ _ hk] at hs; exact moveUp_frame _ e e' hs
  · rw [normal_down _ _ _ hk] at hs; exact moveDown_frame _ e e' hs

/-- C20: in Normal mode a navigation key (arrows, `h`, `j`, `k`, `l`) changes
at most the cursor row, the cursor column and the viewport offset: the
document (every line and the line count), the mode, the command buffer, the
status message and the quit flag (and the file name and the pending key) are
unchanged; with a valid cursor the key is processed without failure; and a
motion blocked at a buffer edge (Left/`h` at column 0, Right/`l` at end of
line, Up/`k` at row 0, Down/`j` at the last row) leaves the whole state
unchanged. -/
theorem nav_keys_change_only_cursor_and_offset (e : Editor) (i : Input)
    (hmode : e.mode = Mode.ModeNormal) (hnav : isNavKey i.ev = true) :
    (∀ e', step i e = some e' →
      e'.buffer = e.buffer ∧ len e'.buffer = len e.buffer ∧ e'.mode = e.mode ∧
      e'.commandBuffer = e.commandBuffer ∧ e'.message = e.message ∧ e'.quit = e.quit ∧
      e'.lastKey = e.lastKey ∧ e'.fileName = e.fileName) ∧
    (CursorOk e → ∃ e', step i e = some e') ∧
    (isLeftKey i.ev = true → e.cursorX = 0 → step i e = some e) ∧
    (isRightKey i.ev = true → 0 ≤ e.cursorY → e.cursorY < len e.buffer →
      e.cursorX = len (lineAt e.buffer e.cursorY) → step i e = some e) ∧
    (isUpKey i.ev = true → e.cursorY = 0 → step i e = some e) ∧
    (isDownKey i.ev = true → e.cursorY = len e.buffer - 1 → step i e = some e) := by
  have hstep : step i e = processNormalMode i.height i.ev e := by simp only [step, hmode]
  refine ⟨?_, ?_, ?_, ?_, ?_, ?_⟩
  · intro e' hs
    obtain ⟨h1, h2, h3, h4, h5, h6, h7⟩ := nav_step_frame i e e' hmode hnav hs
    exact ⟨h2, by rw [h2], h3, h4, h7, h6, h5, h1⟩
  · intro hc
    obtain ⟨e', hs, _⟩ := nav_step_ok i e hmode hc hnav
    exact ⟨e', hs⟩
  · intro hk hx
    rw [hstep, normal_left _ _ _ hk]
    simp [moveLeft, hx]
  · intro hk h0 h1 hx
    rw [hstep, normal_right _ _ _ hk]
    simp [moveRight, currentLine_eq e h0 h1, hx]
  · intro hk hy
    rw [hstep, normal_up _ _ _ hk]
    simp [moveUp, hy]
  · intro hk hy
    rw [hstep, normal_down _ _ _ hk]
    simp [moveDown, hy]

/-- Instance of C20: `h` at column 0 of the two-line sample session. -/
theorem nav_keys_change_only_cursor_and_offset_witness :
    (∀ e', step (keyRune 104) sampleTwoLines = some e' →
      e'.buffer = sampleTwoLines.buffer ∧ len e'.buffer = len sampleTwoLines.buffer ∧
      e'.mode = sampleTwoLines.mode ∧ e'.commandBuffer = sampleTwoLines.commandBuffer ∧
      e'.message = sampleTwoLines.message ∧ e'.quit = sampleTwoLines.quit ∧
      e'.lastKey = sampleTwoLines.lastKey ∧ e'.fileName = sampleTwoLines.fileName) ∧
    (∃ e', step (keyRune 104) sampleTwoLines = some e') ∧
    step (keyRune 104) sampleTwoLines = some sampleTwoLines :=
  ⟨(nav_keys_change_only_cursor_and_offset sampleTwoLines (keyRune 104) rfl (by decide)).1,
    (nav_keys_change_only_cursor_and_offset sampleTwoLines (keyRune 104) rfl
      (by decide)).2.1 (by decide),
    (nav_keys_change_only_cursor_and_offset sampleTwoLines (keyRune 104) rfl
      (by decide)).2.2.1 (by decide) (by decide)⟩

/-! ### Where `dd`, the goroutine and Backspace break the specification -/

/-- C16 (the code at the failing input): on the file `"a\nb"` and a terminal
of height 2 (visible content height 1) the keys `j`, `d` reach a state with
`offset ≤ row < offset + visible_height` (row 1, offset 1); the next `d`
deletes the last line and moves the cursor to row 0 while the offset stays 1.
The same happens on `"a\nb\nc"` with height 3 after `j`, `j`, `d`, `d`, `d`. -/
theorem dd_leaves_offset_below_row :
    ((run [keyRuneOn 2 106, keyRuneOn 2 100] (startSession (ascii "f") (ascii "a\nb"))).map
        (fun s => (s.buffer, s.cursorY, s.offsetY,
          decide (s.offsetY ≤ s.cursorY ∧ s.cursorY < s.offsetY + (2 - 1))))
        = some ([ascii "a", ascii "b"], 1, 1, true) ∧
      (run [keyRuneOn 2 106, keyRuneOn 2 100, keyRuneOn 2 100]
        (startSession (ascii "f") (ascii "a\nb"))).map
        (fun s => (s.buffer, s.cursorY, s.offsetY,
          decide (s.offsetY ≤ s.cursorY ∧ s.cursorY < s.offsetY + (2 - 1))))
        = some ([ascii "a"], 0, 1, false)) ∧
    ((run [keyRuneOn 3 106, keyRuneOn 3 106, keyRuneOn 3 100, keyRuneOn 3 100,
          keyRuneOn 3 100] (startSession (ascii "f") (ascii "a\nb\nc"))).map
        (fun s => (s.buffer, s.cursorY, s.offsetY,
          decide (s.offsetY ≤ s.cursorY ∧ s.cursorY < s.offsetY + (3 - 1))))
        = some ([ascii "a", ascii "b"], 1, 1, true) ∧
      (run [keyRuneOn 3 106, keyRuneOn 3 106, keyRuneOn 3 100, keyRuneOn 3 100,
          keyRuneOn 3 100, keyRuneOn 3 100] (startSession (ascii "f") (ascii "a\nb\nc"))).map
        (fun s => (s.buffer, s.cursorY, s.offsetY,
          decide (s.offsetY ≤ s.cursorY ∧ s.cursorY < s.offsetY + (3 - 1))))
        = some ([ascii "a"], 0, 1, false)) :=
  ⟨⟨by decide, by decide⟩, by decide, by decide⟩

/-- A key event counted as starting a goroutine is one that runs the `else`
branch of `case 'd'`: it only sets `lastKey` to `d`. -/
theorem startsTimer_step (i : Input) (e : Editor) (h : startsTimer i e = true) :
    step i e = some { e with lastKey := 100 } := by
  simp only [startsTimer, carriesChar, decide_eq_true_eq] at h
  obtain ⟨hm, ⟨hr, h1, h2, h3, h4, h5⟩, hl⟩ := h
  simp only [step, hm, processNormalMode]
  cases hk : i.ev.key <;> simp_all [deleteLineKey]

/-- C17 (the code at the failing input): on the file `"a\nb\nc"` the keys `d`
at 0 ms and `d` at 100 ms delete a line; a new `d` at 250 ms is pending
(`lastKey = 'd'`); the goroutine of the `d` typed at 0 ms wakes at 300 ms and
clears `lastKey` outside any handler; the `d` at 350 ms, 100 ms after its own
first `d`, deletes nothing.  And after `d` at 0 ms, a `d` at 301 ms handled
before the goroutine has run deletes a line. -/
theorem stale_timer_cancels_later_gesture :
    ((runEvents [Event.key 0 (keyRune 100), Event.key 100 (keyRune 100),
          Event.key 250 (keyRune 100)] (startTimed (ascii "a\nb\nc"))).map
        (fun s => (s.ed.buffer, s.ed.lastKey, s.sleeping))
        = some ([ascii "b", ascii "c"], 100, [300, 550]) ∧
      (runEvents [Event.key 0 (keyRune 100), Event.key 100 (keyRune 100),
          Event.key 250 (keyRune 100), Event.wake 300] (startTimed (ascii "a\nb\nc"))).map
        (fun s => (s.ed.buffer, s.ed.lastKey, s.sleeping))
        = some ([ascii "b", ascii "c"], 0, [550]) ∧
      (runEvents [Event.key 0 (keyRune 100), Event.key 100 (keyRune 100),
          Event.key 250 (keyRune 100), Event.wake 300, Event.key 350 (keyRune 100)]
          (startTimed (ascii "a\nb\nc"))).map
        (fun s => (s.ed.buffer, s.ed.lastKey, s.sleeping))
        = some ([ascii "b", ascii "c"], 100, [550, 650])) ∧
    (runEvents [Event.key 0 (keyRune 100), Event.key 301 (keyRune 100)]
        (startTimed (ascii "a\nb\nc"))).map
      (fun s => (s.ed.buffer, s.ed.lastKey, s.sleeping))
      = some ([ascii "b", ascii "c"], 0, [300]) :=
  ⟨⟨by decide, by decide, by decide⟩, by decide⟩

/-- C19 (the code at the failing input): on the empty file (one empty line)
`i` reaches Insert mode with the valid cursor `(0, 0)`; typing `é` (U+00E9)
gives the line `C3 A9` with the column at 1, and Backspace then leaves the
line `A9` with the column at 0 instead of the empty line. -/
theorem backspace_after_multibyte_leaves_a_byte :
    (run [keyRune 105] (startSession (ascii "f") [])).map
        (fun s => (s.buffer, s.cursorY, s.cursorX, s.mode, decide (CursorOk s)))
        = some ([[]], 0, 0, Mode.ModeInsert, true) ∧
    (run [keyRune 105, keyRune 0xE9] (startSession (ascii "f") [])).map
        (fun s => (s.buffer, s.cursorY, s.cursorX))
        = some ([[0xC3, 0xA9]], 0, 1) ∧
    (run [keyRune 105, keyRune 0xE9, keyNamed Key.KeyBackspace]
        (startSession (ascii "f") [])).map
        (fun s => (s.buffer, s.cursorY, s.cursorX))
        = some ([[0xA9]], 0, 0) :=
  ⟨by decide, by decide, by decide⟩

/-! ### Byte offsets against characters -/

/-- C9 (the code at the failing input): on the file `"é"` (bytes `C3 A9`, one
character) the session starts in Normal mode with the valid cursor `(0, 0)`
on that character; the key `x` removes only its first byte and leaves the
line `A9`, which is not valid UTF-8 (it reads back as U+FFFD), instead of the
line without the character. -/
theorem x_on_multibyte_leaves_a_byte :
    (decide (CursorOk (startSession (ascii "f") [0xC3, 0xA9])) = true ∧
      (startSession (ascii "f") [0xC3, 0xA9]).mode = Mode.ModeNormal ∧
      stringToRunes (lineAt (startSession (ascii "f") [0xC3, 0xA9]).buffer 0) = [0xE9]) ∧
    (run [keyRune 120] (startSession (ascii "f") [0xC3, 0xA9])).map
        (fun s => (s.buffer, s.cursorY, s.cursorX, s.mode,
          stringToRunes (lineAt s.buffer 0)))
        = some ([[0xA9]], 0, 0, Mode.ModeNormal, [RuneError]) :=
  ⟨⟨by decide, by decide, by decide⟩, by decide⟩

/-- C10 (the code at the failing input): on the file `"é"` (bytes `C3 A9`)
the keys `l`, `l`, `i` reach Insert mode with the valid cursor `(0, 2)` right
after the character `é`; Backspace removes only its second byte and leaves
the line `C3`, which is not valid UTF-8 (it reads back as U+FFFD), with the
column at 1, instead of the line without the character. -/
theorem backspace_on_multibyte_leaves_a_byte :
    ((run [keyRune 108, keyRune 108, keyRune 105]
        (startSession (ascii "f") [0xC3, 0xA9])).map
        (fun s => (s.buffer, s.cursorY, s.cursorX, s.mode))
        = some ([[0xC3, 0xA9]], 0, 2, Mode.ModeInsert) ∧
      (run [keyRune 108, keyRune 108, keyRune 105]
        (startSession (ascii "f") [0xC3, 0xA9])).map
        (fun s => (decide (CursorOk s), stringToRunes (lineAt s.buffer 0)))
        = some (true, [0xE9])) ∧
    (run [keyRune 108, keyRune 108, keyRune 105, keyNamed Key.KeyBackspace]
        (startSession (ascii "f") [0xC3, 0xA9])).map
        (fun s => (s.buffer, s.cursorY, s.cursorX, stringToRunes (lineAt s.buffer 0)))
        = some ([[0xC3]], 0, 1, [RuneError]) :=
  ⟨⟨by decide, by decide⟩, by decide⟩

end VimClone
